import Mathlib

/-!
Verification of the local content library of the youtube_down repository.

The Python sources under study manipulate markdown metadata documents,
a folder tree, a thumbnail cache and HTTP byte ranges.  Strings are
modelled as `List Char`; each regular-expression search of the source is
hand-compiled into an executable scanner with the same leftmost-match,
lazy/greedy and backtracking behaviour on the patterns the code uses.
-/

namespace YTD

abbrev Str := List Char

/-- Convert a Lean string literal to the character-list model. -/
def lit (s : String) : Str := s.toList

/-- The characters Python's `str.strip()` removes. -/
def pyWS (c : Char) : Bool :=
  c = ' ' || c = '\t' || c = '\n' || c = '\r' || c = '\x0b' || c = '\x0c'

/-- Python `s.strip()`. -/
def pyStrip (s : Str) : Str :=
  ((s.dropWhile pyWS).reverse.dropWhile pyWS).reverse

/-- Python `s.split(sep)` for a one-character separator. -/
def splitOnChar (sep : Char) : Str → List Str
  | [] => [[]]
  | c :: rest =>
    if c = sep then [] :: splitOnChar sep rest
    else
      match splitOnChar sep rest with
      | [] => [[c]]
      | h :: t => (c :: h) :: t

/-- Whether `pat` occurs as a contiguous substring (Python `pat in s`). -/
def occursB (pat : Str) : Str → Bool
  | [] => pat.isEmpty
  | s@(_ :: rest) => pat.isPrefixOf s || occursB pat rest

/-- Python `s.replace(pat, repl)` (all non-overlapping occurrences,
left to right); the fuel argument bounds the number of scanned
positions and `s.length` always suffices. -/
def pyReplaceAux (pat repl : Str) : Nat → Str → Str
  | 0, s => s
  | _ + 1, [] => []
  | fuel + 1, s@(c :: rest) =>
    if pat ≠ [] ∧ pat.isPrefixOf s then
      repl ++ pyReplaceAux pat repl fuel (s.drop pat.length)
    else
      c :: pyReplaceAux pat repl fuel rest

def pyReplace (pat repl s : Str) : Str := pyReplaceAux pat repl s.length s

/-- Decimal digits. -/
def digitChars : Str := lit "0123456789"

def digitChar (d : Nat) : Char := digitChars.getD d '0'

/-- Decimal rendering of a natural number (Python `str(n)` / f-string
interpolation of an `int`); the fuel argument makes the division
recursion structural and `n` itself always suffices. -/
def natToStrAux : Nat → Nat → Str
  | 0, n => [digitChar n]
  | fuel + 1, n =>
    if n < 10 then [digitChar n]
    else natToStrAux fuel (n / 10) ++ [digitChar (n % 10)]

def natToStr (n : Nat) : Str := natToStrAux n n

/-- Value of a decimal digit character. -/
def digitVal (c : Char) : Nat := c.toNat - 48

def isDigitB (c : Char) : Bool := '0' ≤ c && c ≤ '9'

/-- Digits-only decimal parse; `none` mirrors Python `int()` raising
`ValueError` (signs and surrounding whitespace, which the streaming
headers under study never carry, are out of the model's scope). -/
def strToNat (s : Str) : Option Nat :=
  if s ≠ [] ∧ s.all isDigitB then
    some (s.foldl (fun a c => a * 10 + digitVal c) 0)
  else none

/-- ASCII lowering, the fragment of Python `str.lower()` the studied
inputs (file extensions, URLs) exercise. -/
def pyLowerChar (c : Char) : Char :=
  if 'A' ≤ c ∧ c ≤ 'Z' then Char.ofNat (c.toNat + 32) else c

def pyLower (s : Str) : Str := s.map pyLowerChar

/-! ## Hand-compiled regular-expression scanners

`re.search` tries every start position from the left; at each position
the pattern's leading literal must match, after which lazy groups take
the shortest completion (with backtracking).  `scanFor step` is the
outer position loop shared by every search. -/

def scanFor (step : Str → Option α) : Str → Option α
  | [] => none
  | s@(_ :: rest) =>
    match step s with
    | some r => some r
    | none => scanFor step rest

/-- Lazy DOTALL capture `(.*?)close`: shortest (possibly empty) group
followed by the literal `close`; returns the group and the remainder
after `close`. -/
def lazyCap0 (close : Str) : Str → Option (Str × Str)
  | [] => if close.isEmpty then some ([], []) else none
  | s@(c :: rest) =>
    if close.isPrefixOf s then some ([], s.drop close.length)
    else (lazyCap0 close rest).map (fun p => (c :: p.1, p.2))

/-- Lazy DOTALL capture `(.+?)close`: like `lazyCap0` but the group is
non-empty, so `close` is only looked for from offset one on. -/
def lazyCap1 (close : Str) : Str → Option (Str × Str)
  | [] => none
  | c :: rest => (lazyCap0 close rest).map (fun p => (c :: p.1, p.2))

/-- Line-confined lazy capture `(.*?)close` where `.` does not match a
newline (the pattern is compiled without DOTALL). -/
def lazyCapL0 (close : Str) : Str → Option (Str × Str)
  | [] => if close.isEmpty then some ([], []) else none
  | s@(c :: rest) =>
    if close.isPrefixOf s then some ([], s.drop close.length)
    else if c = '\n' then none
    else (lazyCapL0 close rest).map (fun p => (c :: p.1, p.2))

/-- Line-confined lazy capture `(.+?)close`. -/
def lazyCapL1 (close : Str) : Str → Option (Str × Str)
  | [] => none
  | c :: rest =>
    if c = '\n' then none
    else (lazyCapL0 close rest).map (fun p => (c :: p.1, p.2))

/-- Matcher for the tail `(.+?)\]\((.+?)\)` of the channel pattern.
Group one grows lazily (backtracking over an unusable literal extends
the group, since `.` matches everything but a newline); at each stop
the group-two capture `(.+?)\)` is attempted on the remainder. -/
def chanCapAux (acc : Str) : Str → Option (Str × Str)
  | [] => none
  | s@(c :: rest) =>
    if (lit "](").isPrefixOf s then
      match lazyCapL1 (lit ")") (s.drop 2) with
      | some p => some (acc, p.1)
      | none => if c = '\n' then none else chanCapAux (acc ++ [c]) rest
    else if c = '\n' then none else chanCapAux (acc ++ [c]) rest

def chanCap : Str → Option (Str × Str)
  | [] => none
  | c :: rest => if c = '\n' then none else chanCapAux [c] rest

/-- `re.search(pat ++ (.+?) ++ close₁ ++ (.+?) ++ close₂)` for the
channel row, where `pat` ends in the opening bracket. -/
def searchChan (pat : Str) : Str → Option (Str × Str) :=
  scanFor (fun s => if pat.isPrefixOf s then chanCap (s.drop pat.length) else none)

/-- `re.search(pat ++ (.+))` without DOTALL: greedy capture of the
non-empty rest of the line after the first viable occurrence of `pat`. -/
def searchLineGreedy (pat : Str) : Str → Option Str :=
  scanFor (fun s =>
    if pat.isPrefixOf s then
      let t := (s.drop pat.length).takeWhile (fun c => ¬ c = '\n')
      if t = [] then none else some t
    else none)

/-- `re.search(pat ++ ([^|]+))`: greedy capture of the non-empty run of
non-pipe characters (newlines included, since character classes are not
affected by DOTALL). -/
def searchNotPipe (pat : Str) : Str → Option Str :=
  scanFor (fun s =>
    if pat.isPrefixOf s then
      let t := (s.drop pat.length).takeWhile (fun c => ¬ c = '|')
      if t = [] then none else some t
    else none)

/-- `re.search(pat ++ (.*?) ++ close, DOTALL)`. -/
def searchLazy0 (pat close : Str) : Str → Option Str :=
  scanFor (fun s =>
    if pat.isPrefixOf s then (lazyCap0 close (s.drop pat.length)).map (·.1) else none)

/-- `re.search(pat ++ (.+?) ++ close, DOTALL)`. -/
def searchLazy1 (pat close : Str) : Str → Option Str :=
  scanFor (fun s =>
    if pat.isPrefixOf s then (lazyCap1 close (s.drop pat.length)).map (·.1) else none)

def lazyCap (one : Bool) (close : Str) (s : Str) : Option (Str × Str) :=
  if one then lazyCap1 close s else lazyCap0 close s

/-- `re.sub('(pat)capture(close)', replacement keeping both groups, s,
DOTALL)`: every non-overlapping match `pat ++ g ++ close` (with `g`
lazily minimal, non-empty iff `one`) is replaced by
`pat ++ mid ++ close`, scanning left to right and resuming after each
match.  The replacement is spliced literally; the source interpolates
`mid` into a template processed for backslash escapes, so the model is
faithful for `mid` without backslashes (all inputs under study).  The
fuel bounds the scanned positions; `s.length` suffices whenever
`pat ≠ []`. -/
def subLazyAux (one : Bool) (pat close mid : Str) : Nat → Str → Str
  | 0, s => s
  | _ + 1, [] => []
  | fuel + 1, s@(c :: rest) =>
    if pat.isPrefixOf s then
      match lazyCap one close (s.drop pat.length) with
      | some p => pat ++ mid ++ close ++ subLazyAux one pat close mid fuel p.2
      | none => c :: subLazyAux one pat close mid fuel rest
    else c :: subLazyAux one pat close mid fuel rest

def subLazyAll (one : Bool) (pat close mid s : Str) : Str :=
  subLazyAux one pat close mid s.length s

/-- Join lines with newlines (inverse of `splitOnChar '\n'`). -/
def joinNL : List Str → Str
  | [] => []
  | [l] => l
  | l :: ls => l ++ '\n' :: joinNL ls

/-- A line matched by `^# .+$` under MULTILINE. -/
def titleLineMatch (l : Str) : Bool :=
  (lit "# ").isPrefixOf l && decide (2 < l.length)

def replaceFirstTitleLine (nt : Str) : List Str → List Str
  | [] => []
  | l :: ls =>
    if titleLineMatch l then (lit "# " ++ nt) :: ls
    else l :: replaceFirstTitleLine nt ls

/-- `re.sub('^# .+$', '# ' + new, content, count=1, MULTILINE)`. -/
def subTitleOnce (nt content : Str) : Str :=
  joinNL (replaceFirstTitleLine nt (splitOnChar '\n' content))

/-! ## Metadata documents (`src/services/metadata.py`)

A file row of the Files table (`{'type', 'filename', 'folder'}`). -/

structure FileRef where
  type : Str
  filename : Str
  folder : Str
deriving DecidableEq

/-- The markdown table `MetadataService._build_files_table_from_list`. -/
def build_files_table_from_list (files : List FileRef) : Str :=
  match files with
  | [] => lit "| Type | Filename | Folder |\n|------|----------|--------|\n| - | - | - |"
  | _ =>
    files.foldl
      (fun acc f =>
        acc ++ lit "\n| " ++ f.type ++ lit " | " ++ f.filename ++ lit " | " ++ f.folder ++ lit " |")
      (lit "| Type | Filename | Folder |\n|------|----------|--------|")

/-- The markdown table `MetadataService._build_files_table` (single
optional row; `None` and the empty string are both falsy). -/
def build_files_table (file_type filename folder : Option Str) : Str :=
  if (file_type.getD []) = [] ∨ (filename.getD []) = [] then
    lit "| Type | Filename | Folder |\n|------|----------|--------|\n| - | - | - |"
  else
    lit "| Type | Filename | Folder |\n|------|----------|--------|\n| " ++
      (file_type.getD []) ++ lit " | " ++ (filename.getD []) ++ lit " | " ++
      (if (folder.getD []) = [] then lit "00_Inbox" else folder.getD []) ++ lit " |"

/-- One line of the Files table as read by `get_files` and
`parse_metadata`: a line starting with a pipe that is neither a header
row nor a separator row is split on pipes, the cells are stripped, and
a row with at least four cells whose first cell is not the sentinel
dash becomes a `FileRef`. -/
def parseRowLine (line : Str) : Option FileRef :=
  if ['|'].isPrefixOf line ∧ ¬ (lit "| Type").isPrefixOf line ∧
      ¬ (lit "|---").isPrefixOf line then
    match (splitOnChar '|' line).map pyStrip with
    | _ :: t :: f :: d :: _ => if t = lit "-" then none else some ⟨t, f, d⟩
    | _ => none
  else none

/-- Row parsing shared by `get_files` and `parse_metadata`. -/
def parseFileRows (sect : Str) : List FileRef :=
  (splitOnChar '\n' sect).filterMap parseRowLine

/-- The header line of the rendered Files table. -/
def headerLine : Str := lit "| Type | Filename | Folder |"

/-- The separator line of the rendered Files table. -/
def sepLine : Str := lit "|------|----------|--------|"

/-- The rendered row of one `FileRef` in `_build_files_table_from_list`. -/
def rowOf (f : FileRef) : Str :=
  lit "| " ++ f.type ++ lit " | " ++ f.filename ++ lit " | " ++ f.folder ++ lit " |"

def filesPat : Str := lit "## Files\n\n"
def linksClose : Str := lit "\n\n## Links"

/-- `MetadataService.get_files` on the document content (the service
reads the record file and returns `[]` when the Files section is not
found). -/
def get_files_content (c : Str) : List FileRef :=
  match searchLazy0 filesPat linksClose c with
  | none => []
  | some sect => parseFileRows sect

/-- First-match replacement used by `add_file`: the first entry of the
same type is overwritten, otherwise the new entry is appended. -/
def replaceOrAppendFile (files : List FileRef) (nf : FileRef) : List FileRef :=
  match files.findIdx? (fun f => f.type == nf.type) with
  | some i => files.set i nf
  | none => files ++ [nf]

/-- `MetadataService.add_file` on the document content of an existing
record: re-read the rows, replace-or-append, re-render the table and
splice it between the Files heading and the Links heading. -/
def add_file_content (c : Str) (file_type filename folder : Str) : Str :=
  let files := get_files_content c
  let files2 := replaceOrAppendFile files ⟨file_type, filename, folder⟩
  subLazyAll false filesPat linksClose (build_files_table_from_list files2) c

/-- The parsed record (`info` dictionary of `parse_metadata`, whose
keys are all present from initialization on). -/
structure Info where
  title : Str
  channel : Str
  channel_url : Str
  duration_str : Str
  url : Str
  thumbnail : Str
  description : Str
  tags : List Str
  platform : Str
  link_only : Bool
  files : List FileRef
  has_video : Bool
  has_audio : Bool
deriving DecidableEq

/-- The initial `info` dictionary: every field holds its declared
default. -/
def defaultInfo : Info where
  title := []
  channel := []
  channel_url := []
  duration_str := []
  url := []
  thumbnail := []
  description := []
  tags := []
  platform := lit "other"
  link_only := false
  files := []
  has_video := false
  has_audio := false

def extractTitle (c : Str) : Option Str :=
  (splitOnChar '\n' c).findSome? fun l =>
    if titleLineMatch l then some (l.drop 2) else none

def extractChannel (c : Str) : Option (Str × Str) :=
  (searchChan (lit "**Channel** | [") c).orElse fun _ =>
    searchChan (lit "**채널** | [") c

def extractPlatform (c : Str) : Option Str :=
  (searchNotPipe (lit "**Platform** | ") c).orElse fun _ =>
    searchNotPipe (lit "**플랫폼** | ") c

def extractDuration (c : Str) : Option Str :=
  (searchLineGreedy (lit "**Duration** | ") c).orElse fun _ =>
    searchLineGreedy (lit "**재생시간** | ") c

def extractTags (c : Str) : Option Str :=
  (searchLazy1 (lit "## Tags\n\n") (lit "\n\n##") c).orElse fun _ =>
    searchLazy1 (lit "## 태그\n\n") (lit "\n\n##") c

def extractFilesSection (c : Str) : Option Str :=
  searchLazy0 filesPat linksClose c

def extractUrl (c : Str) : Option Str :=
  ((searchLineGreedy (lit "**Original URL**: ") c).orElse fun _ =>
    searchLineGreedy (lit "**원본 URL**: ") c).orElse fun _ =>
      searchLineGreedy (lit "**YouTube URL**: ") c

def extractThumbnail (c : Str) : Option Str :=
  (searchLineGreedy (lit "**Thumbnail**: ") c).orElse fun _ =>
    searchLineGreedy (lit "**썸네일**: ") c

def extractDescription (c : Str) : Option Str :=
  (searchLazy1 (lit "## Description\n\n") (lit "\n\n---") c).orElse fun _ =>
    searchLazy1 (lit "## 상세 정보\n\n") (lit "\n\n---") c

def hasLinkOnlyMarker (c : Str) : Bool :=
  occursB (lit "*Link only saved*") c || occursB (lit "*링크만 저장됨*") c

/-- `len(files) == 0 or (len(files) == 1 and files[0]['type'] == '-')`. -/
def filesSentinelOnly (fs : List FileRef) : Bool :=
  match fs with
  | [] => true
  | [f] => f.type == lit "-"
  | _ => false

def splitCommaTags (ts : Str) : List Str :=
  ((splitOnChar ',' ts).map pyStrip).filter (· ≠ [])

/-! `MetadataService.parse_metadata` as the source's sequence of field
assignments on the initialized `info` dictionary, one named step per
assignment block. -/

def parseT (c : Str) : Info :=
  match extractTitle c with
  | some t => { defaultInfo with title := pyStrip t }
  | none => defaultInfo

def parseC (c : Str) : Info :=
  match extractChannel c with
  | some p => { parseT c with channel := p.1, channel_url := p.2 }
  | none => parseT c

def parseP (c : Str) : Info :=
  match extractPlatform c with
  | some p => { parseC c with platform := pyStrip p }
  | none => parseC c

def parseD (c : Str) : Info :=
  match extractDuration c with
  | some d => { parseP c with duration_str := pyStrip d }
  | none => parseP c

def parseG (c : Str) : Info :=
  match extractTags c with
  | some g =>
    if pyStrip g ≠ [] then { parseD c with tags := splitCommaTags (pyStrip g) }
    else parseD c
  | none => parseD c

def parseF (c : Str) : Info :=
  match extractFilesSection c with
  | some sect =>
    { parseG c with files := parseFileRows sect,
                    has_video := (parseFileRows sect).any (fun f => f.type == lit "video"),
                    has_audio := (parseFileRows sect).any (fun f => f.type == lit "audio"),
                    link_only := filesSentinelOnly (parseFileRows sect) }
  | none => parseG c

def parseU (c : Str) : Info :=
  match extractUrl c with
  | some u => { parseF c with url := pyStrip u }
  | none => parseF c

def parseTh (c : Str) : Info :=
  match extractThumbnail c with
  | some t => { parseU c with thumbnail := pyStrip t }
  | none => parseU c

def parseDe (c : Str) : Info :=
  match extractDescription c with
  | some d => { parseTh c with description := pyStrip d }
  | none => parseTh c

/-- `MetadataService.parse_metadata`.  `none` stands for an unreadable
or missing file (the `open` call raises before any field is assigned
and the handler returns the defaults). -/
def parse_metadata (content : Option Str) : Info :=
  match content with
  | none => defaultInfo
  | some c =>
    if hasLinkOnlyMarker c then { parseDe c with link_only := true } else parseDe c

/-! ## Rendering (`MetadataService.save_metadata`) -/

/-- Raw item attributes handed to `save_metadata`; `none` models an
absent dictionary key. -/
structure SaveInfo where
  title : Option Str
  channel : Option Str
  channel_url : Option Str
  platform : Option Str
  duration_str : Option Str
  upload_date : Option Str
  view_count : Option Nat
  tags : List Str
  url : Option Str
  thumbnail : Option Str
  description : Option Str

/-- The URL patterns of `_detect_platform`, in dictionary order; every
regular expression there is a literal with escaped dots. -/
def platformPatterns : List (Str × List Str) :=
  [ (lit "youtube", [lit "youtube.com", lit "youtu.be"]),
    (lit "tiktok", [lit "tiktok.com", lit "vm.tiktok.com"]),
    (lit "instagram", [lit "instagram.com", lit "instagr.am"]),
    (lit "facebook", [lit "facebook.com", lit "fb.watch", lit "fb.com"]),
    (lit "twitter", [lit "twitter.com", lit "x.com"]),
    (lit "vimeo", [lit "vimeo.com"]),
    (lit "dailymotion", [lit "dailymotion.com", lit "dai.ly"]),
    (lit "naver", [lit "naver.com", lit "tv.naver.com", lit "clip.naver.com", lit "naver.me"]),
    (lit "pinterest", [lit "pinterest.com", lit "pin.it", lit "pinimg.com"]),
    (lit "reddit", [lit "reddit.com", lit "redd.it", lit "v.redd.it", lit "i.redd.it"]),
    (lit "soundcloud", [lit "soundcloud.com"]) ]

def detect_platform (url : Str) : Str :=
  if url = [] then lit "other"
  else
    match platformPatterns.find? (fun p => p.2.any (fun pat => occursB pat (pyLower url))) with
    | some p => p.1
    | none => lit "other"

/-- `f"{upload_date[:4]}-{upload_date[4:6]}-{upload_date[6:8]}"` when
the date has exactly eight characters. -/
def formatUploadDate (d : Str) : Str :=
  if d.length = 8 then
    d.take 4 ++ '-' :: (d.drop 4).take 2 ++ '-' :: d.drop 6
  else d

/-- Thousands grouping of `f"{n:,}"`, on the reversed digit string. -/
def groupRev : Str → Str
  | a :: b :: c :: d :: rest => a :: b :: c :: ',' :: groupRev (d :: rest)
  | s => s

def formatThousands (n : Nat) : Str := (groupRev (natToStr n).reverse).reverse

def joinCommaSpace : List Str → Str
  | [] => []
  | [t] => t
  | t :: ts => t ++ ',' :: ' ' :: joinCommaSpace ts

/-- The document text written by `save_metadata` (the f-string
template, with the wall-clock timestamp as a parameter). -/
def save_metadata_content (info : SaveInfo)
    (folder file_type filename : Option Str) (now : Str) : Str :=
  let platform := match info.platform with
    | some p => p
    | none => detect_platform (info.url.getD [])
  lit "# " ++ info.title.getD (lit "Unknown") ++
  lit "\n\n## Basic Information\n\n| Item | Content |\n|------|---------|\n| **Channel** | [" ++
  info.channel.getD (lit "Unknown") ++ lit "](" ++ info.channel_url.getD (lit "#") ++
  lit ") |\n| **Platform** | " ++ platform ++
  lit " |\n| **Duration** | " ++ info.duration_str.getD [] ++
  lit " |\n| **Upload Date** | " ++ formatUploadDate (info.upload_date.getD []) ++
  lit " |\n| **View Count** | " ++ formatThousands (info.view_count.getD 0) ++
  lit " |\n\n## Tags\n\n" ++ joinCommaSpace info.tags ++
  lit "\n\n## Files\n\n" ++ build_files_table file_type filename folder ++
  lit "\n\n## Links\n\n- **Original URL**: " ++ info.url.getD [] ++
  lit "\n- **Channel URL**: " ++ info.channel_url.getD [] ++
  lit "\n- **Thumbnail**: " ++ info.thumbnail.getD [] ++
  lit "\n\n## Description\n\n" ++ info.description.getD (lit "No description") ++
  lit "\n\n---\n*Downloaded: " ++ now ++ lit "*\n"

/-- `MetadataService.update_metadata` on the document content of an
existing record: the title substitution (count one, MULTILINE), then
the description substitution in its English and legacy Korean forms. -/
def update_metadata_content (c : Str) (newTitle newDesc : Option Str) : Str :=
  let c1 := match newTitle with
    | none => c
    | some t => subTitleOnce t c
  match newDesc with
  | none => c1
  | some d =>
    let c2 := subLazyAll true (lit "## Description\n\n") (lit "\n\n---") d c1
    subLazyAll true (lit "## 상세 정보\n\n") (lit "\n\n---") d c2

/-! ## Paths (`os.path.splitext`, `os.path.join`)

`ntpath.splitext` (the application targets Windows): the extension
starts at the last dot of the basename unless every character before
that dot is itself a dot. -/

def isSep (c : Char) : Bool := c = '/' || c = '\\'

def splitextExt (p : Str) : Str :=
  let base := (p.reverse.takeWhile (fun c => ¬ isSep c)).reverse
  let revBase := base.reverse
  let afterRev := revBase.takeWhile (fun c => ¬ c = '.')
  match revBase.drop afterRev.length with
  | [] => []
  | _ :: beforeRev =>
    if beforeRev.any (fun c => ¬ c = '.') then '.' :: afterRev.reverse else []

def splitextRoot (p : Str) : Str := p.take (p.length - (splitextExt p).length)

/-- `os.path.join` with a single separator (the separator choice does
not affect any property under study). -/
def joinPath (a b : Str) : Str := a ++ '/' :: b

/-! ## Folder store (`src/folder_manager.py`)

The directory tree under `videos/` is a listing of folders, each with
its contained plain files in `os.listdir` order.  `configured`
summarizes `config.is_configured()` (a non-empty content path naming
an existing directory). -/

structure FMState where
  configured : Bool
  cfg_default_folder : Str
  folders : List (Str × List Str)
deriving DecidableEq

/-- `FolderManager.default_folder`: `config.default_folder or '00_Inbox'`. -/
def default_folder (st : FMState) : Str :=
  if st.cfg_default_folder = [] then lit "00_Inbox" else st.cfg_default_folder

def lookupFolder (st : FMState) (name : Str) : Option (List Str) :=
  (st.folders.find? (fun p => p.1 == name)).map (·.2)

def setFolder (name : Str) (v : List Str) (fs : List (Str × List Str)) :
    List (Str × List Str) :=
  fs.map (fun p => if p.1 = name then (name, v) else p)

def removeFolder (name : Str) (fs : List (Str × List Str)) : List (Str × List Str) :=
  fs.filter (fun p => ¬ p.1 = name)

/-- `FolderManager._sanitize_folder_name`. -/
def sanitize_folder_name (name : Str) : Str :=
  let s1 := name.filter (fun c => ¬ c ∈ lit "<>:\"/\\|?*")
  let s2 := s1.filter (fun c => 32 ≤ c.toNat)
  let s3 := ((s2.dropWhile (fun c => c = '.' || c = ' ')).rdropWhile (fun c => c = '.' || c = ' '))
  if 255 < s3.length then s3.take 255 else s3

def suffixCandidate (base ext : Str) (k : Nat) : Str :=
  base ++ '_' :: natToStr k ++ ext

/-- The collision loop of `delete_folder` / `move_video`: try
`base_1`, `base_2`, … until a name free in `names` is found.  The
source loop is unbounded; since the candidates are pairwise distinct,
one of the first `names.length + 1` is always free, so this bounded
search returns the same least-index name (`findFreeName_not_mem`
below). -/
def findFreeName (names : List Str) (base ext : Str) : Nat → Nat → Str
  | 0, k => suffixCandidate base ext k
  | fuel + 1, k =>
    let c := suffixCandidate base ext k
    if c ∈ names then findFreeName names base ext fuel (k + 1) else c

def resolveCollision (names : List Str) (f : Str) : Str :=
  if f ∈ names then
    findFreeName names (splitextRoot f) (splitextExt f) (names.length + 1) 1
  else f

/-- The move loop of `delete_folder`: each file is given a
collision-free name in the inbox and moved there; returns the updated
inbox listing and the moved count. -/
def moveAll (inbox : List Str) : List Str → List Str × Nat
  | [] => (inbox, 0)
  | f :: fs =>
    let nm := resolveCollision inbox f
    let r := moveAll (inbox ++ [nm]) fs
    (r.1, r.2 + 1)

/-- `FolderManager.delete_folder`.  The branch where the default
folder's directory is missing while files must be moved mirrors
`shutil.move` raising `OSError` before any move: the handler reports
failure with the formatted error (abbreviated here) and the tree is
unchanged. -/
def delete_folder (st : FMState) (name : Str) : (Bool × Str) × FMState :=
  if ¬ st.configured then
    ((false, lit "컨텐츠 폴더가 설정되지 않았습니다."), st)
  else if name = default_folder st then
    ((false, lit "기본 폴더는 삭제할 수 없습니다."), st)
  else
    match lookupFolder st name with
    | none => ((false, lit "폴더를 찾을 수 없습니다."), st)
    | some files =>
      match lookupFolder st (default_folder st) with
      | some inbox =>
        let r := moveAll inbox files
        ((true, natToStr r.2 ++ lit "개의 동영상이 " ++ default_folder st ++ lit "로 이동되었습니다."),
         { st with folders := removeFolder name (setFolder (default_folder st) r.1 st.folders) })
      | none =>
        if files = [] then
          ((true, natToStr 0 ++ lit "개의 동영상이 " ++ default_folder st ++ lit "로 이동되었습니다."),
           { st with folders := removeFolder name st.folders })
        else ((false, lit "폴더 삭제 실패"), st)

/-- `FolderManager.rename_folder`. -/
def rename_folder (st : FMState) (old new : Str) : (Bool × Str) × FMState :=
  if ¬ st.configured then
    ((false, lit "컨텐츠 폴더가 설정되지 않았습니다."), st)
  else if old = default_folder st then
    ((false, lit "기본 폴더는 Settings에서 이름을 변경해주세요."), st)
  else if pyStrip new = [] then
    ((false, lit "새 폴더 이름을 입력해주세요."), st)
  else
    let s := sanitize_folder_name (pyStrip new)
    if s = [] then ((false, lit "유효하지 않은 폴더 이름입니다."), st)
    else if lookupFolder st old = none then ((false, lit "폴더를 찾을 수 없습니다."), st)
    else if (lookupFolder st s).isSome then ((false, lit "이미 존재하는 폴더 이름입니다."), st)
    else ((true, s),
      { st with folders := st.folders.map (fun p => if p.1 = old then (s, p.2) else p) })

/-! ## Thumbnail cache (`src/services/thumbnail.py`)

The filesystem is a listing of path/bytes pairs; `fetch` abstracts the
`urllib` download (timeout and user-agent header are outside the
model), returning `none` on any network or write failure. -/

structure ThumbState where
  configured : Bool
  content_path : Str
  fallback_path : Str
  files : List (Str × List Nat)
deriving DecidableEq

def thumbPathOf (st : ThumbState) (vid : Str) : Str :=
  if st.configured then
    joinPath (joinPath st.content_path (lit "thumbnails")) (vid ++ lit ".jpg")
  else joinPath st.fallback_path (vid ++ lit "_thumb.jpg")

def get_thumbnail_path (st : ThumbState) (vid : Str) : Option Str :=
  let p := thumbPathOf st vid
  if (st.files.find? (fun q => q.1 == p)).isSome then some p else none

def thumbnail_exists (st : ThumbState) (vid : Str) : Bool :=
  (get_thumbnail_path st vid).isSome

def writeFile (st : ThumbState) (path : Str) (bytes : List Nat) : ThumbState :=
  if (st.files.find? (fun q => q.1 == path)).isSome then
    { st with files := st.files.map (fun q => if q.1 = path then (path, bytes) else q) }
  else { st with files := st.files ++ [(path, bytes)] }

/-- The URL `save_thumbnail` settles on: the `thumbnail_url` argument
when truthy, else the `'thumbnail'` value of the `info` dictionary when
one was passed (`none` models an absent argument, `some []` an empty
string). -/
def effectiveThumbUrl (thumbnail_url info_thumbnail : Option Str) : Str :=
  let u0 := thumbnail_url.getD []
  if u0 = [] then
    match info_thumbnail with
    | some t => t
    | none => u0
  else u0

/-- `ThumbnailService.save_thumbnail`. -/
def save_thumbnail (st : ThumbState) (vid : Str)
    (thumbnail_url info_thumbnail : Option Str)
    (fetch : Str → Option (List Nat)) : Option Str × ThumbState :=
  let url := effectiveThumbUrl thumbnail_url info_thumbnail
  if url = [] then (none, st)
  else if thumbnail_exists st vid then (get_thumbnail_path st vid, st)
  else
    let path := thumbPathOf st vid
    match fetch url with
    | some bytes => (some path, writeFile st path bytes)
    | none => (none, st)

/-! ## Streaming responder (`src/routes/streaming.py`, `src/utils/streaming.py`) -/

def intToStr (i : Int) : Str :=
  if i < 0 then '-' :: natToStr (-i).toNat else natToStr i.toNat

def pyInt (s : Str) : Option Int := (strToNat s).map Int.ofNat

/-- The chunked generator of `stream_file_with_range`: read blocks of
`min(8192, remaining)` bytes from the current position until
`remaining` is exhausted or the file ends.  The fuel bounds the
iterations; `file.length + 1` always suffices since every continuing
iteration consumes at least one byte. -/
def readChunks : List Nat → Int → Nat → List Nat
  | _, _, 0 => []
  | avail, remaining, fuel + 1 =>
    if remaining ≤ 0 then []
    else
      let chunk := avail.take (min 8192 remaining.toNat)
      if chunk = [] then []
      else chunk ++ readChunks (avail.drop chunk.length) (remaining - chunk.length) fuel

def generateBody (file : List Nat) (byte_start length : Int) : List Nat :=
  readChunks (file.drop byte_start.toNat) length (file.length + 1)

/-- `routes.streaming.get_mimetype` (`endswith` chain with a
`video/mp4` fallback). -/
def get_mimetype (file_path : Str) : Str :=
  if (lit ".mp3").isSuffixOf file_path then lit "audio/mpeg"
  else if (lit ".webm").isSuffixOf file_path then lit "video/webm"
  else if (lit ".mkv").isSuffixOf file_path then lit "video/x-matroska"
  else lit "video/mp4"

/-- `utils.streaming.get_mimetype_for_file`: dictionary lookup on the
lowercased extension with an `application/octet-stream` default. -/
def mimeTable : List (Str × Str) :=
  [ (lit ".mp4", lit "video/mp4"),
    (lit ".webm", lit "video/webm"),
    (lit ".mkv", lit "video/x-matroska"),
    (lit ".mp3", lit "audio/mpeg"),
    (lit ".m4a", lit "audio/mp4"),
    (lit ".wav", lit "audio/wav"),
    (lit ".ogg", lit "audio/ogg"),
    (lit ".flac", lit "audio/flac") ]

def get_mimetype_for_file (filepath : Str) : Str :=
  let ext := pyLower (splitextExt filepath)
  match mimeTable.find? (fun p => p.1 == ext) with
  | some p => p.2
  | none => lit "application/octet-stream"

structure RangeResponse where
  status : Nat
  mimetype : Str
  content_range : Str
  accept_ranges : Str
  content_length : Str
  body : List Nat
deriving DecidableEq

/-- `routes.streaming.stream_file_with_range`; `none` models the
request handler's `except` path (an `IndexError` on a dash-free header
or a `ValueError` from `int`). -/
def stream_file_with_range (file : List Nat) (file_path : Str)
    (range_header : Str) (file_size : Int) : Option RangeResponse :=
  match splitOnChar '-' (pyReplace (lit "bytes=") [] range_header) with
  | p0 :: p1 :: _ =>
    match (if p0 = [] then some 0 else pyInt p0),
          (if p1 = [] then some (file_size - 1) else pyInt p1) with
    | some byte_start, some byte_end =>
      let length := byte_end - byte_start + 1
      some { status := 206
             mimetype := get_mimetype file_path
             content_range := lit "bytes " ++ intToStr byte_start ++ '-' :: intToStr byte_end
               ++ '/' :: intToStr file_size
             accept_ranges := lit "bytes"
             content_length := intToStr length
             body := generateBody file byte_start length }
    | _, _ => none
  | _ => none

/-! ## Library index (`src/services/library.py`) -/

/-- Python string comparison (codepoint lexicographic) as a Bool
relation, for the folder sort. -/
def strLE : Str → Str → Bool
  | [], _ => true
  | _ :: _, [] => false
  | a :: as, b :: bs => if a = b then strLE as bs else decide (a.toNat < b.toNat)

/-- Insert `x` after every element `y` with `le y x`: the insertion
step of a stable insertion sort. -/
def insertSorted {α : Type} (le : α → α → Bool) (x : α) : List α → List α
  | [] => [x]
  | y :: ys => if le y x then y :: insertSorted le x ys else x :: y :: ys

/-- A stable sort by the total preorder `le` (equal keys keep their
input order, as Python's `sorted`). -/
def stableSort {α : Type} (le : α → α → Bool) (l : List α) : List α :=
  l.foldl (fun acc x => insertSorted le x acc) []

/-- `FolderManager.get_folders` restricted to the names, in the order
the service iterates them: every directory under `videos/`, sorted
with the default folder first and then case-insensitively
(`key=(not is_default, name.lower())`, a stable sort). -/
def get_folders (st : FMState) : List Str :=
  if ¬ st.configured then []
  else
    stableSort (fun a b =>
      let ka := (¬ a = default_folder st : Bool)
      let kb := (¬ b = default_folder st : Bool)
      (!ka && kb) || (ka == kb && strLE (pyLower a) (pyLower b)))
      (st.folders.map (·.1))

structure ScanAcc where
  has_video : Bool
  has_audio : Bool
  primary_folder : Str
  primary_filename : Str
deriving DecidableEq

/-- The filename test of `_find_files_for_video_id`: base name equals
the id, or the title when the title is non-empty. -/
def nameMatches (video_id title f : Str) : Bool :=
  decide (splitextRoot f = video_id ∨ (title ≠ [] ∧ splitextRoot f = title))

/-- The video-extension test of `_find_files_for_video_id`. -/
def isVideoExtB (f : Str) : Bool :=
  decide (pyLower (splitextExt f) = lit ".mp4" ∨ pyLower (splitextExt f) = lit ".webm" ∨
    pyLower (splitextExt f) = lit ".mkv")

/-- The audio-extension test of `_find_files_for_video_id`. -/
def isAudioExtB (f : Str) : Bool :=
  decide (pyLower (splitextExt f) = lit ".mp3")

/-- The per-file body of `_find_files_for_video_id`.  The empty string
plays the role of Python's falsy `None` in the `if not primary_folder`
updates. -/
def ffStep (video_id title fname : Str) (a : ScanAcc) (f : Str) : ScanAcc :=
  if nameMatches video_id title f then
    if isVideoExtB f then
      { a with has_video := true,
               primary_folder := if a.primary_folder = [] then fname else a.primary_folder,
               primary_filename := if a.primary_folder = [] then f else a.primary_filename }
    else if isAudioExtB f then
      { a with has_audio := true,
               primary_folder := if a.primary_folder = [] then fname else a.primary_folder,
               primary_filename := if a.primary_folder = [] then f else a.primary_filename }
    else a
  else a

/-- The per-folder body of `_find_files_for_video_id` (a folder whose
directory vanished is skipped). -/
def ffFolder (st : FMState) (video_id title : Str) (acc : ScanAcc) (fname : Str) : ScanAcc :=
  match lookupFolder st fname with
  | none => acc
  | some files => files.foldl (ffStep video_id title fname) acc

/-- `LibraryService._find_files_for_video_id`: search every known
folder for a file whose base name equals the id or the (non-empty)
title and classify it by extension. -/
def find_files_for_video_id (st : FMState) (video_id title : Str) : ScanAcc :=
  (get_folders st).foldl (ffFolder st video_id title) ⟨false, false, [], []⟩

/-- The per-row body of the Files loop of
`_get_library_from_folder_structure`. -/
def recStep (a : ScanAcc) (f : FileRef) : ScanAcc :=
  if f.type == lit "video" then
    { a with has_video := true,
             primary_folder := if a.primary_folder = [] then f.folder else a.primary_folder,
             primary_filename := if a.primary_folder = [] then f.filename else a.primary_filename }
  else if f.type == lit "audio" then
    { a with has_audio := true,
             primary_folder := if a.primary_folder = [] then f.folder else a.primary_folder,
             primary_filename := if a.primary_folder = [] then f.filename else a.primary_filename }
  else a

/-- The per-file loop of `_get_library_from_folder_structure` over the
record's Files section. -/
def recordFilesLoop (fs : List FileRef) : ScanAcc :=
  fs.foldl recStep ⟨false, false, [], []⟩

/-- Whether some file of the named folder passes the test `p`. -/
def folderScanAny (st : FMState) (p : Str → Bool) (fname : Str) : Bool :=
  match lookupFolder st fname with
  | none => false
  | some files => files.any p

/-- One listed item of `_get_library_from_folder_structure`: parse the
record, derive the flags from its Files rows, fall back to the
reconciliation scan for legacy records, and set `link_only`.  Returns
`(link_only, has_video, has_audio)`. -/
def library_item_flags (st : FMState) (video_id content : Str) : Bool × Bool × Bool :=
  let vinfo := parse_metadata (some content)
  let fs := vinfo.files
  let acc0 := recordFilesLoop fs
  let acc := if filesSentinelOnly fs then find_files_for_video_id st video_id vinfo.title else acc0
  (!acc.has_video && !acc.has_audio, acc.has_video, acc.has_audio)

def library_item_link_only (st : FMState) (video_id content : Str) : Bool :=
  (library_item_flags st video_id content).1

/-! ## Well-formedness predicates and sample data -/

/-- A table cell the row parser reproduces verbatim: stripped, without
pipes or newlines. -/
def cleanCell (s : Str) : Bool :=
  (pyStrip s == s) && !(s.contains '|') && !(s.contains '\n')

/-- A `FileRef` whose rendered row parses back to itself (the `Type`
check mirrors the header-row filter of the parser). -/
def cleanRef (f : FileRef) : Bool :=
  cleanCell f.type && cleanCell f.filename && cleanCell f.folder &&
    (f.type != lit "-") && !((lit "Type").isPrefixOf f.type)

/-- A concrete item used to evaluate `save` followed by `parse`. -/
def sampleItem : SaveInfo where
  title := some (lit "My Video")
  channel := some (lit "Chan")
  channel_url := some (lit "https://youtube.com/c/chan")
  platform := some (lit "youtube")
  duration_str := some (lit "3:45")
  upload_date := some (lit "20240102")
  view_count := some 1234567
  tags := [lit "alpha", lit "beta"]
  url := some (lit "https://youtube.com/watch?v=abc")
  thumbnail := some (lit "https://img.example/t.jpg")
  description := some (lit "A description.")

def sampleNow : Str := lit "2026-10-12 00:00:00"

def sampleDoc : Str := save_metadata_content sampleItem none none none sampleNow

/-- A small record body used to instantiate the document-splicing
theorems: prefix, Files-table body, and suffix. -/
def smallPre : Str := lit "# T\n\n## Tags\n\nx\n\n"
def smallTable : Str := lit "| Type | Filename | Folder |\n|------|----------|--------|\n| - | - | - |"
def smallPost : Str := lit "\n\n- **Original URL**: u\n\n## Description\n\nD\n\n---\n*t*\n"
def smallDoc : Str := smallPre ++ filesPat ++ smallTable ++ linksClose ++ smallPost

/-- A concrete thumbnail-cache state holding one cached image. -/
def sampleThumbState : ThumbState where
  configured := true
  content_path := lit "/c"
  fallback_path := lit "/fb"
  files := [(joinPath (joinPath (lit "/c") (lit "thumbnails")) (lit "vid1" ++ lit ".jpg"), [1, 2, 3])]

def sampleFetch : Str → Option (List Nat) := fun _ => some [9, 9]

/-- Decimal rendering of an optional number, empty when absent. -/
def optNatStr : Option Nat → Str
  | some n => natToStr n
  | none => []

/-- A `Range` header of the form `bytes=<start>-<end>` with either side
possibly missing. -/
def renderRangeHeader (s e : Option Nat) : Str :=
  lit "bytes=" ++ optNatStr s ++ '-' :: optNatStr e

/-- A concrete configured folder tree with a default folder and one
extra folder. -/
def sampleFM : FMState where
  configured := true
  cfg_default_folder := lit "00_Inbox"
  folders := [(lit "00_Inbox", [lit "a.mp4"]), (lit "F", [lit "a.mp4", lit "b.mkv"])]

/-! # Lemmas

## Substring occurrence -/

theorem occursB_nil (pat : Str) : occursB pat [] = pat.isEmpty := rfl

theorem occursB_cons (pat : Str) (c : Char) (rest : Str) :
    occursB pat (c :: rest) = (pat.isPrefixOf (c :: rest) || occursB pat rest) := rfl

theorem occursB_of_pref {pat s : Str} (h : pat <+: s) : occursB pat s = true := by
  cases s with
  | nil => simp [occursB_nil, List.prefix_nil.mp h]
  | cons c rest =>
    rw [occursB_cons, List.isPrefixOf_iff_prefix.mpr h, Bool.true_or]

theorem occursB_append_right {pat s : Str} (A : Str) (h : occursB pat s = true) :
    occursB pat (A ++ s) = true := by
  induction A with
  | nil => simpa using h
  | cons a A ih => rw [List.cons_append, occursB_cons, ih, Bool.or_true]

theorem occursB_cons_false {pat : Str} {c : Char} {s : Str}
    (h : occursB pat (c :: s) = false) :
    pat.isPrefixOf (c :: s) = false ∧ occursB pat s = false := by
  rw [occursB_cons] at h
  exact Bool.or_eq_false_iff.mp h

theorem occursB_append_left_false {pat A D : Str} (h : occursB pat (A ++ D) = false) :
    occursB pat D = false := by
  cases hx : occursB pat D with
  | false => rfl
  | true => rw [occursB_append_right A hx] at h; cases h

theorem occursB_drop_append {pat A D : Str} (i : Nat)
    (h : occursB pat (A ++ D) = false) : occursB pat (A.drop i ++ D) = false := by
  cases hx : occursB pat (A.drop i ++ D) with
  | false => rfl
  | true =>
    have h2 := occursB_append_right (A.take i) hx
    rw [← List.append_assoc, List.take_append_drop] at h2
    rw [h2] at h; cases h

/-- No occurrence of `pat` inside `A` extended by all but the last
character of `pat` rules out every occurrence starting strictly before
the designated one in `A ++ pat ++ B`. -/
theorem not_prefix_of_no_occurs {pat A B : Str} (hp : pat ≠ []) (hA : A ≠ [])
    (h : occursB pat (A ++ pat.dropLast) = false) : ¬ pat <+: A ++ (pat ++ B) := by
  intro hpre
  have hlp : 1 ≤ pat.length := List.length_pos.mpr hp
  have hlA : 1 ≤ A.length := List.length_pos.mpr hA
  have hlen : pat.length ≤ (A ++ pat.dropLast).length := by
    rw [List.length_append, List.length_dropLast]; omega
  have hsplit : A ++ (pat ++ B) = (A ++ pat.dropLast) ++ (pat.getLast hp :: B) := by
    conv_lhs => rw [← List.dropLast_concat_getLast hp]
    simp [List.append_assoc]
  rw [hsplit] at hpre
  have hpre2 := (List.isPrefix_append_of_length hlen).mp hpre
  rw [occursB_of_pref hpre2] at h; cases h

/-! ## The position loop of `re.search` -/

theorem scanFor_nil {α : Type} (step : Str → Option α) : scanFor step [] = none := rfl

theorem scanFor_cons {α : Type} (step : Str → Option α) (c : Char) (rest : Str) :
    scanFor step (c :: rest) =
      (match step (c :: rest) with
       | some r => some r
       | none => scanFor step rest) := rfl

theorem scanFor_append {α : Type} (step : Str → Option α) (A s : Str)
    (h : ∀ i, i < A.length → step (A.drop i ++ s) = none) :
    scanFor step (A ++ s) = scanFor step s := by
  induction A with
  | nil => simp
  | cons a A ih =>
    have h0 := h 0 (by simp)
    rw [List.drop_zero] at h0
    simp only [List.cons_append] at h0
    rw [List.cons_append, scanFor_cons, h0]
    exact ih fun i hi => by
      have := h (i + 1) (by simpa using Nat.succ_lt_succ hi)
      simpa using this

theorem scanFor_eq_of_step {α : Type} (step : Str → Option α) {s : Str} (hs : s ≠ [])
    {r : α} (h : step s = some r) : scanFor step s = some r := by
  cases s with
  | nil => exact absurd rfl hs
  | cons c rest => rw [scanFor_cons, h]

/-! ## Lazy captures -/

theorem lazyCap0_eq {close : Str} (T S : Str) (hc : close ≠ [])
    (h : occursB close (T ++ close.dropLast) = false) :
    lazyCap0 close (T ++ (close ++ S)) = some (T, S) := by
  induction T with
  | nil =>
    rw [List.nil_append]
    cases close with
    | nil => exact absurd rfl hc
    | cons c cl =>
      rw [List.cons_append, lazyCap0]
      rw [if_pos (List.isPrefixOf_iff_prefix.mpr (by rw [← List.cons_append]; exact List.prefix_append _ _))]
      rw [← List.cons_append, List.drop_left]
  | cons t T ih =>
    rw [List.cons_append, lazyCap0]
    rw [if_neg, ih (occursB_cons_false h).2]
    · rfl
    · intro hpre
      exact not_prefix_of_no_occurs hc (List.cons_ne_nil t T) h
        (List.isPrefixOf_iff_prefix.mp hpre)

theorem lazyCap1_eq {close : Str} (T S : Str) (hc : close ≠ []) (hT : T ≠ [])
    (h : occursB close (T ++ close.dropLast) = false) :
    lazyCap1 close (T ++ (close ++ S)) = some (T, S) := by
  cases T with
  | nil => exact absurd rfl hT
  | cons t T' =>
    rw [List.cons_append, lazyCap1, lazyCap0_eq T' S hc (occursB_cons_false h).2]
    rfl

/-! ## Searches and substitution on structured documents -/

theorem isPrefixOf_append_self (pat X : Str) : pat.isPrefixOf (pat ++ X) = true :=
  List.isPrefixOf_iff_prefix.mpr (List.prefix_append _ _)

/-- The Files-section search on a document that decomposes around the
two section markers finds exactly the enclosed table body. -/
theorem searchLazy0_spec {pat close : Str} (P T S : Str) (hp : pat ≠ []) (hc : close ≠ [])
    (h1 : occursB pat (P ++ pat.dropLast) = false)
    (h2 : occursB close (T ++ close.dropLast) = false) :
    searchLazy0 pat close (P ++ (pat ++ (T ++ (close ++ S)))) = some T := by
  unfold searchLazy0
  rw [scanFor_append _ P _ ?steps]
  case steps =>
    intro i hi
    rw [if_neg]
    intro hpre
    have hAi : P.drop i ≠ [] := by
      intro hnil
      rw [List.drop_eq_nil_iff] at hnil
      omega
    exact not_prefix_of_no_occurs hp hAi (occursB_drop_append i h1)
      (List.isPrefixOf_iff_prefix.mp hpre)
  apply scanFor_eq_of_step
  · intro hnil
    exact hp (List.append_eq_nil.mp hnil).1
  · rw [if_pos (isPrefixOf_append_self _ _), List.drop_left, lazyCap0_eq T S hc h2]
    rfl

/-- Same statement for the non-empty captures (tags, description). -/
theorem searchLazy1_spec {pat close : Str} (P T S : Str) (hp : pat ≠ []) (hc : close ≠ [])
    (hT : T ≠ [])
    (h1 : occursB pat (P ++ pat.dropLast) = false)
    (h2 : occursB close (T ++ close.dropLast) = false) :
    searchLazy1 pat close (P ++ (pat ++ (T ++ (close ++ S)))) = some T := by
  unfold searchLazy1
  rw [scanFor_append _ P _ ?steps]
  case steps =>
    intro i hi
    rw [if_neg]
    intro hpre
    have hAi : P.drop i ≠ [] := by
      intro hnil
      rw [List.drop_eq_nil_iff] at hnil
      omega
    exact not_prefix_of_no_occurs hp hAi (occursB_drop_append i h1)
      (List.isPrefixOf_iff_prefix.mp hpre)
  apply scanFor_eq_of_step
  · intro hnil
    exact hp (List.append_eq_nil.mp hnil).1
  · rw [if_pos (isPrefixOf_append_self _ _), List.drop_left, lazyCap1_eq T S hc hT h2]
    rfl

theorem subLazyAux_no_occurs (one : Bool) (pat close mid : Str) :
    ∀ (s : Str) (fuel : Nat), occursB pat s = false →
      subLazyAux one pat close mid fuel s = s := by
  intro s
  induction s with
  | nil => intro fuel _; cases fuel <;> rfl
  | cons c rest ih =>
    intro fuel h
    obtain ⟨h1, h2⟩ := occursB_cons_false h
    cases fuel with
    | zero => rfl
    | succ f =>
      rw [subLazyAux, if_neg (by simp [h1]), ih f h2]

theorem length_ge_one_of_ne_nil {s : Str} (h : s ≠ []) : 1 ≤ s.length :=
  List.length_pos.mpr h

/-- The section-splicing substitution on a document that decomposes
around the two markers: the enclosed body is replaced by `mid` and
everything else is untouched. -/
theorem subLazyAux_spec (one : Bool) {pat close : Str} (mid : Str)
    (hp : pat ≠ []) (hc : close ≠ []) :
    ∀ (P : Str) (fuel : Nat) (T S : Str),
      occursB pat (P ++ pat.dropLast) = false →
      occursB close (T ++ close.dropLast) = false →
      occursB pat S = false →
      (one = true → T ≠ []) →
      (P ++ (pat ++ (T ++ (close ++ S)))).length ≤ fuel →
      subLazyAux one pat close mid fuel (P ++ (pat ++ (T ++ (close ++ S)))) =
        P ++ (pat ++ (mid ++ (close ++ S))) := by
  intro P
  induction P with
  | nil =>
    intro fuel T S h1 h2 h3 hone hfuel
    rw [List.nil_append, List.nil_append] at *
    cases pat with
    | nil => exact absurd rfl hp
    | cons p pl =>
      cases fuel with
      | zero => simp [List.length_append] at hfuel
      | succ f =>
        rw [List.cons_append, subLazyAux]
        rw [if_pos (by rw [← List.cons_append]; exact isPrefixOf_append_self _ _)]
        rw [show (p :: (pl ++ (T ++ (close ++ S)))) = (p :: pl) ++ (T ++ (close ++ S))
          from rfl, List.drop_left]
        have hcap : lazyCap one close (T ++ (close ++ S)) = some (T, S) := by
          cases one with
          | false => exact lazyCap0_eq T S hc h2
          | true => exact lazyCap1_eq T S hc (hone rfl) h2
        rw [hcap]
        show (p :: pl) ++ mid ++ close ++ subLazyAux one (p :: pl) close mid f S = _
        rw [subLazyAux_no_occurs one _ close mid S f h3]
        simp [List.append_assoc]
  | cons a P' ih =>
    intro fuel T S h1 h2 h3 hone hfuel
    cases fuel with
    | zero =>
      exfalso
      have := @length_ge_one_of_ne_nil ((a :: P') ++ (pat ++ (T ++ (close ++ S))))
        (by simp)
      omega
    | succ f =>
      rw [List.cons_append, subLazyAux]
      rw [if_neg]
      · rw [ih f T S (occursB_cons_false h1).2 h2 h3 hone (by
          simp only [List.cons_append, List.length_cons, List.length_append] at hfuel ⊢
          omega)]
        rw [List.cons_append]
      · intro hpre
        exact not_prefix_of_no_occurs hp (List.cons_ne_nil a P') h1
          (List.isPrefixOf_iff_prefix.mp hpre)

/-! ## Files-table round trip -/

theorem splitOnChar_no_sep {sep : Char} : ∀ {s : Str}, ¬ sep ∈ s →
    splitOnChar sep s = [s] := by
  intro s
  induction s with
  | nil => intro _; rfl
  | cons c rest ih =>
    intro h
    rw [splitOnChar, if_neg (by simp at h; exact fun e => h.1 e.symm)]
    rw [ih (by simp at h; exact h.2)]

theorem splitOnChar_append {sep : Char} : ∀ {A : Str} (B : Str), ¬ sep ∈ A →
    splitOnChar sep (A ++ sep :: B) = A :: splitOnChar sep B := by
  intro A
  induction A with
  | nil =>
    intro B _
    rw [List.nil_append, splitOnChar, if_pos rfl]
  | cons a A ih =>
    intro B h
    simp only [List.mem_cons, not_or] at h
    rw [List.cons_append, splitOnChar, if_neg (fun e => h.1 e.symm)]
    rw [ih B h.2]


theorem occursB_exists {pat s : Str} (h : occursB pat s = true) :
    ∃ A B, s = A ++ (pat ++ B) := by
  induction s with
  | nil =>
    refine ⟨[], [], ?_⟩
    have hp : pat = [] := by simpa [occursB_nil, List.isEmpty_iff] using h
    simp [hp]
  | cons c rest ih =>
    rw [occursB_cons, Bool.or_eq_true] at h
    cases h with
    | inl hp =>
      obtain ⟨B, hB⟩ := List.isPrefixOf_iff_prefix.mp hp
      exact ⟨[], B, by rw [List.nil_append, hB]⟩
    | inr hr =>
      obtain ⟨A, B, hAB⟩ := ih hr
      exact ⟨c :: A, B, by rw [hAB, List.cons_append]⟩

theorem isPrefixOf_cons_false {p : Str} {a b : Char} {s : Str} (h : ¬ a = b) :
    (a :: p).isPrefixOf (b :: s) = false := by
  simp [List.isPrefixOf, h]

/-- No occurrence of a double newline in `l ++ '\n' :: t` when the line
`l` is newline-free and `t` neither starts with a newline nor contains
a double newline. -/
theorem nn_false_line : ∀ (l : Str), ¬ '\n' ∈ l →
    ∀ t : Str, t.head? ≠ some '\n' → occursB (lit "\n\n") t = false →
    occursB (lit "\n\n") (l ++ '\n' :: t) = false := by
  intro l
  induction l with
  | nil =>
    intro _ t hh ht
    rw [List.nil_append, occursB_cons, Bool.or_eq_false_iff]
    refine ⟨?_, ht⟩
    cases t with
    | nil => rfl
    | cons c t' =>
      have hc : ¬ '\n' = c := fun e => hh (by rw [← e]; rfl)
      show List.isPrefixOf ['\n', '\n'] ('\n' :: c :: t') = false
      simp [List.isPrefixOf, hc]
  | cons a l' ih =>
    intro hl t hh ht
    have ha : ¬ '\n' = a := fun e => hl (by rw [e]; exact List.mem_cons_self a l')
    rw [List.cons_append, occursB_cons, Bool.or_eq_false_iff]
    exact ⟨isPrefixOf_cons_false ha,
      ih (fun m => hl (List.mem_cons_of_mem _ m)) t hh ht⟩

/-- Rendered tables: a join of non-empty newline-free lines followed by
a newline holds no double newline and does not start with one. -/
theorem nn_false_join : ∀ (ls : List Str) (l : Str),
    (∀ x ∈ l :: ls, x ≠ [] ∧ ¬ '\n' ∈ x) →
    occursB (lit "\n\n") (joinNL (l :: ls) ++ ['\n']) = false ∧
      (joinNL (l :: ls) ++ ['\n']).head? ≠ some '\n' := by
  intro ls
  induction ls with
  | nil =>
    intro l h
    obtain ⟨hne, hnl⟩ := h l (List.mem_cons_self l [])
    constructor
    · show occursB (lit "\n\n") (l ++ '\n' :: []) = false
      exact nn_false_line l hnl [] (by simp) rfl
    · cases l with
      | nil => exact absurd rfl hne
      | cons c l' =>
        intro hcon
        simp only [joinNL, List.cons_append, List.head?_cons, Option.some.injEq] at hcon
        exact hnl (by rw [hcon]; exact List.mem_cons_self _ _)
  | cons l2 ls' ih =>
    intro l h
    obtain ⟨hne, hnl⟩ := h l (List.mem_cons_self l _)
    have hrest := ih l2 (fun x hx => h x (List.mem_cons_of_mem _ hx))
    have hjoin : joinNL (l :: l2 :: ls') ++ ['\n'] =
        l ++ '\n' :: (joinNL (l2 :: ls') ++ ['\n']) := by
      show (l ++ '\n' :: joinNL (l2 :: ls')) ++ ['\n'] = _
      simp [List.append_assoc]
    rw [hjoin]
    constructor
    · exact nn_false_line l hnl _ hrest.2 hrest.1
    · cases l with
      | nil => exact absurd rfl hne
      | cons c l' =>
        intro hcon
        simp only [List.cons_append, List.head?_cons, Option.some.injEq] at hcon
        exact hnl (by rw [hcon]; exact List.mem_cons_self _ _)

/-- A body with no double newline (and no trailing newline) cannot make
the Links heading appear before its own closing marker. -/
theorem occursB_linksClose_false {T : Str}
    (hT : occursB (lit "\n\n") (T ++ ['\n']) = false) :
    occursB linksClose (T ++ linksClose.dropLast) = false := by
  by_contra hcon
  rw [Bool.not_eq_false] at hcon
  obtain ⟨A, B, hAB⟩ := occursB_exists hcon
  have hsplit : (A ++ lit "\n\n") ++ (lit "## Links" ++ B) =
      (T ++ ['\n']) ++ ('\n' :: lit "## Link") := by
    have h1 : A ++ (linksClose ++ B) = (A ++ lit "\n\n") ++ (lit "## Links" ++ B) := by
      show A ++ ((lit "\n\n" ++ lit "## Links") ++ B) = _
      simp [List.append_assoc]
    have h2 : T ++ linksClose.dropLast = (T ++ ['\n']) ++ ('\n' :: lit "## Link") := by
      show T ++ (['\n'] ++ ('\n' :: lit "## Link")) = _
      simp [List.append_assoc]
    rw [← h1, ← hAB, h2]
  have hlenEq : T.length + 9 = A.length + (10 + B.length) := by
    have := congrArg List.length hAB
    simpa [List.length_append, linksClose] using this
  have hlen : (A ++ lit "\n\n").length ≤ (T ++ ['\n']).length := by
    simp only [List.length_append]
    show A.length + 2 ≤ T.length + 1
    omega
  have hpre0 : (A ++ lit "\n\n") <+: ((T ++ ['\n']) ++ ('\n' :: lit "## Link")) := by
    rw [← hsplit]
    exact List.prefix_append _ _
  have hpre : (A ++ lit "\n\n") <+: (T ++ ['\n']) :=
    (List.isPrefix_append_of_length hlen).mp hpre0
  obtain ⟨C, hC⟩ := hpre
  have : occursB (lit "\n\n") (T ++ ['\n']) = true := by
    rw [← hC, List.append_assoc]
    exact occursB_append_right A (occursB_of_pref (List.prefix_append _ _))
  rw [this] at hT
  cases hT

theorem not_mem_of_contains_eq_false {c : Char} {s : Str} (h : s.contains c = false) :
    ¬ c ∈ s := by
  intro hm
  have h2 : List.elem c s = true := List.elem_iff.mpr hm
  have h3 : s.contains c = true := h2
  rw [h3] at h
  cases h

theorem joinNL_cons_eq : ∀ (ls : List Str) (l : Str),
    joinNL (l :: ls) = l ++ (ls.map (fun x => '\n' :: x)).join := by
  intro ls
  induction ls with
  | nil => intro l; simp [joinNL]
  | cons l2 ls' ih =>
    intro l
    show l ++ '\n' :: joinNL (l2 :: ls') = _
    rw [ih l2]
    simp [List.append_assoc]

theorem foldl_rows : ∀ (fs : List FileRef) (acc : Str),
    List.foldl
      (fun acc f =>
        acc ++ lit "\n| " ++ f.type ++ lit " | " ++ f.filename ++ lit " | " ++ f.folder ++ lit " |")
      acc fs
    = acc ++ (fs.map (fun f => '\n' :: rowOf f)).join := by
  intro fs
  induction fs with
  | nil => intro acc; simp
  | cons f fs' ih =>
    intro acc
    rw [List.foldl_cons, ih]
    simp [rowOf, show lit "\n| " = '\n' :: lit "| " from rfl, List.append_assoc]

theorem build_table_eq (f0 : FileRef) (fs : List FileRef) :
    build_files_table_from_list (f0 :: fs) =
      joinNL (headerLine :: sepLine :: (f0 :: fs).map rowOf) := by
  show List.foldl _ (lit "| Type | Filename | Folder |\n|------|----------|--------|") (f0 :: fs) = _
  rw [foldl_rows, joinNL_cons_eq]
  rw [show (lit "| Type | Filename | Folder |\n|------|----------|--------|") =
    headerLine ++ '\n' :: sepLine from rfl]
  simp [List.map_map, Function.comp_def, List.append_assoc]

theorem splitNL_joinNL : ∀ (ls : List Str) (l : Str), (∀ x ∈ l :: ls, ¬ '\n' ∈ x) →
    splitOnChar '\n' (joinNL (l :: ls)) = l :: ls := by
  intro ls
  induction ls with
  | nil =>
    intro l h
    exact splitOnChar_no_sep (h l (List.mem_cons_self l []))
  | cons l2 ls' ih =>
    intro l h
    show splitOnChar '\n' (l ++ '\n' :: joinNL (l2 :: ls')) = _
    rw [splitOnChar_append _ (h l (List.mem_cons_self l _))]
    rw [ih l2 (fun x hx => h x (List.mem_cons_of_mem _ hx))]

theorem pyStrip_pad (x : Str) : pyStrip (' ' :: (x ++ [' '])) = pyStrip x := by
  unfold pyStrip
  have h1 : List.dropWhile pyWS (' ' :: (x ++ [' '])) = List.dropWhile pyWS (x ++ [' ']) := by
    rw [List.dropWhile_cons]
    simp [pyWS]
  rw [h1, List.dropWhile_append]
  cases hu : (List.dropWhile pyWS x).isEmpty with
  | true =>
    have hx : List.dropWhile pyWS x = [] := by simpa [List.isEmpty_iff] using hu
    simp [hx, List.dropWhile_cons, pyWS]
  | false =>
    simp only [hu, Bool.false_eq_true, if_false]
    rw [List.reverse_append]
    show List.reverse (List.dropWhile pyWS (' ' :: (List.dropWhile pyWS x).reverse)) = _
    rw [List.dropWhile_cons]
    simp [pyWS]

theorem isPrefixOf_cons_same {a : Char} {p s : Str} :
    (a :: p).isPrefixOf (a :: s) = p.isPrefixOf s := by
  simp [List.isPrefixOf]

theorem isPrefixOf_append_false {w t : Str} (R : Str) (hw : ¬ ' ' ∈ w) (ht : t ≠ [])
    (h : w.isPrefixOf t = false) : w.isPrefixOf (t ++ ' ' :: R) = false := by
  by_contra hcon
  rw [Bool.not_eq_false] at hcon
  have hpre : w <+: t ++ ' ' :: R := List.isPrefixOf_iff_prefix.mp hcon
  by_cases hlen : w.length ≤ t.length
  · have hwt : w <+: t := (List.isPrefix_append_of_length hlen).mp hpre
    rw [List.isPrefixOf_iff_prefix.mpr hwt] at h
    cases h
  · have htw : t <+: w ∨ w <+: t :=
      List.prefix_or_prefix_of_prefix (List.prefix_append t (' ' :: R)) hpre
    cases htw with
    | inr hwt => exact hlen hwt.length_le
    | inl htw =>
      obtain ⟨u, hu⟩ := htw
      rw [← hu] at hpre
      have hu2 : u <+: ' ' :: R := (List.prefix_append_right_inj t).mp hpre
      cases u with
      | nil => rw [← hu] at hlen; simp at hlen
      | cons c u' =>
        have hc : c = ' ' := (List.cons_prefix_cons.mp hu2).1
        exact hw (by rw [← hu, hc]; exact List.mem_append_right t (List.mem_cons_self _ _))

theorem parseRowLine_rowOf (f : FileRef) (h : cleanRef f = true) :
    parseRowLine (rowOf f) = some f := by
  obtain ⟨t, fl, d⟩ := f
  simp only [cleanRef, cleanCell, Bool.and_eq_true, beq_iff_eq, Bool.not_eq_true',
    bne_iff_ne, ne_eq] at h
  obtain ⟨⟨⟨⟨⟨⟨hst, htp⟩, htn⟩, ⟨⟨hsf, hfp⟩, hfn⟩⟩, ⟨⟨hsd, hdp⟩, hdn⟩⟩, hne⟩, hnT⟩ := h
  have htp' := not_mem_of_contains_eq_false htp
  have hfp' := not_mem_of_contains_eq_false hfp
  have hdp' := not_mem_of_contains_eq_false hdp
  have hrow : rowOf ⟨t, fl, d⟩ =
      '|' :: ((' ' :: (t ++ [' '])) ++ '|' :: ((' ' :: (fl ++ [' '])) ++
        '|' :: ((' ' :: (d ++ [' '])) ++ '|' :: []))) := by
    simp [rowOf, show lit "| " = ['|', ' '] from rfl, show lit " | " = [' ', '|', ' '] from rfl,
      show lit " |" = [' ', '|'] from rfl, List.append_assoc]
  have hA1 : ['|'].isPrefixOf (rowOf ⟨t, fl, d⟩) = true := by
    rw [hrow]; rfl
  have hA2 : (lit "| Type").isPrefixOf (rowOf ⟨t, fl, d⟩) = false := by
    have hrow2 : rowOf ⟨t, fl, d⟩ = '|' :: ' ' :: (t ++ ' ' ::
        ('|' :: ((' ' :: (fl ++ [' '])) ++ '|' :: ((' ' :: (d ++ [' '])) ++ '|' :: [])))) := by
      rw [hrow]; simp [List.append_assoc]
    rw [hrow2, show lit "| Type" = '|' :: ' ' :: lit "Type" from rfl]
    rw [isPrefixOf_cons_same, isPrefixOf_cons_same]
    cases ht : t with
    | nil =>
      show List.isPrefixOf ('T' :: lit "ype") (' ' :: _) = false
      exact isPrefixOf_cons_false (by decide)
    | cons c t' =>
      rw [← ht]
      exact isPrefixOf_append_false _ (by decide) (by rw [ht]; exact List.cons_ne_nil c t') hnT
  have hA3 : (lit "|---").isPrefixOf (rowOf ⟨t, fl, d⟩) = false := by
    rw [hrow, show lit "|---" = '|' :: lit "---" from rfl, isPrefixOf_cons_same]
    show List.isPrefixOf ('-' :: lit "--") (' ' :: _) = false
    exact isPrefixOf_cons_false (by decide)
  have hcell : ∀ (x : Str), ¬ '|' ∈ x → ¬ '|' ∈ (' ' :: (x ++ [' '])) := by
    intro x hx hm
    rcases List.mem_cons.mp hm with hm | hm
    · exact absurd hm (by decide)
    · rcases List.mem_append.mp hm with hm | hm
      · exact hx hm
      · simp at hm
  have hsplit : splitOnChar '|' (rowOf ⟨t, fl, d⟩) =
      [[], ' ' :: (t ++ [' ']), ' ' :: (fl ++ [' ']), ' ' :: (d ++ [' ']), []] := by
    rw [hrow, splitOnChar, if_pos rfl]
    rw [splitOnChar_append _ (hcell t htp')]
    rw [splitOnChar_append _ (hcell fl hfp')]
    rw [splitOnChar_append _ (hcell d hdp')]
    rfl
  rw [parseRowLine, if_pos ⟨hA1, by rw [hA2]; exact Bool.false_ne_true,
    by rw [hA3]; exact Bool.false_ne_true⟩]
  rw [hsplit]
  simp only [List.map_cons, List.map_nil]
  rw [pyStrip_pad, pyStrip_pad, pyStrip_pad, hst, hsf, hsd]
  show (if t = lit "-" then none else some (⟨t, fl, d⟩ : FileRef)) = some ⟨t, fl, d⟩
  rw [if_neg hne]

theorem parseRowLine_header : parseRowLine headerLine = none := by decide

theorem parseRowLine_sep : parseRowLine sepLine = none := by decide

theorem filterMap_rows (fs : List FileRef) (h : ∀ f ∈ fs, cleanRef f = true) :
    (fs.map rowOf).filterMap parseRowLine = fs := by
  induction fs with
  | nil => rfl
  | cons f fs' ih =>
    rw [List.map_cons, List.filterMap_cons, parseRowLine_rowOf f (h f (List.mem_cons_self f _))]
    rw [ih (fun g hg => h g (List.mem_cons_of_mem _ hg))]

theorem rowOf_ne_nil (f : FileRef) : rowOf f ≠ [] := by
  intro hcon
  have hlen := congrArg List.length hcon
  simp only [rowOf, List.length_append, List.length_nil] at hlen
  have h2 : (lit "| ").length = 2 := by decide
  omega

theorem rowOf_no_nl {f : FileRef} (h : cleanRef f = true) : ¬ '\n' ∈ rowOf f := by
  obtain ⟨t, fl, d⟩ := f
  simp only [cleanRef, cleanCell, Bool.and_eq_true, beq_iff_eq, Bool.not_eq_true',
    bne_iff_ne, ne_eq] at h
  obtain ⟨⟨⟨⟨⟨⟨hst, htp⟩, htn⟩, ⟨⟨hsf, hfp⟩, hfn⟩⟩, ⟨⟨hsd, hdp⟩, hdn⟩⟩, hne⟩, hnT⟩ := h
  have htn' := not_mem_of_contains_eq_false htn
  have hfn' := not_mem_of_contains_eq_false hfn
  have hdn' := not_mem_of_contains_eq_false hdn
  intro hm
  simp only [rowOf, List.mem_append] at hm
  rcases hm with ((((((hm | hm) | hm) | hm) | hm) | hm) | hm)
  · simp [show lit "| " = ['|', ' '] from rfl] at hm
  · exact htn' hm
  · simp [show lit " | " = [' ', '|', ' '] from rfl] at hm
  · exact hfn' hm
  · simp [show lit " | " = [' ', '|', ' '] from rfl] at hm
  · exact hdn' hm
  · simp [show lit " |" = [' ', '|'] from rfl] at hm

/-- The rendered table of a clean non-empty file list parses back to
the same list. -/
theorem parseFileRows_render (fs : List FileRef) (h : ∀ f ∈ fs, cleanRef f = true) :
    parseFileRows (build_files_table_from_list fs) = fs := by
  cases fs with
  | nil => decide
  | cons f0 fs' =>
    rw [build_table_eq]
    unfold parseFileRows
    rw [splitNL_joinNL ((sepLine :: (f0 :: fs').map rowOf)) headerLine ?nonl]
    case nonl =>
      intro x hx
      rcases List.mem_cons.mp hx with hx | hx
      · rw [hx]; decide
      · rcases List.mem_cons.mp hx with hx | hx
        · rw [hx]; decide
        · obtain ⟨g, hg, hgx⟩ := List.mem_map.mp hx
          rw [← hgx]
          exact rowOf_no_nl (h g hg)
    rw [List.filterMap_cons, parseRowLine_header, List.filterMap_cons, parseRowLine_sep]
    exact filterMap_rows _ h

/-! ## Replace-or-append on the file list -/

theorem replaceOrAppend_nil (nf : FileRef) : replaceOrAppendFile [] nf = [nf] := rfl

theorem replaceOrAppend_cons (f : FileRef) (rest : List FileRef) (nf : FileRef) :
    replaceOrAppendFile (f :: rest) nf =
      if f.type == nf.type then nf :: rest else f :: replaceOrAppendFile rest nf := by
  unfold replaceOrAppendFile
  rw [List.findIdx?_cons]
  by_cases h : (f.type == nf.type) = true
  · rw [if_pos h, if_pos h]
    rfl
  · rw [if_neg h, if_neg h, List.findIdx?_succ]
    cases List.findIdx? (fun g => g.type == nf.type) rest with
    | none => rfl
    | some i => rfl

theorem mem_replaceOrAppend {fs : List FileRef} {nf g : FileRef}
    (h : g ∈ replaceOrAppendFile fs nf) : g ∈ fs ∨ g = nf := by
  induction fs with
  | nil =>
    rw [replaceOrAppend_nil] at h
    right
    simpa using h
  | cons f rest ih =>
    rw [replaceOrAppend_cons] at h
    by_cases hc : (f.type == nf.type) = true
    · rw [if_pos hc] at h
      rcases List.mem_cons.mp h with h1 | h2
      · right; exact h1
      · left; exact List.mem_cons_of_mem _ h2
    · rw [if_neg hc] at h
      rcases List.mem_cons.mp h with h1 | h2
      · left; rw [h1]; exact List.mem_cons_self _ _
      · rcases ih h2 with h3 | h4
        · left; exact List.mem_cons_of_mem _ h3
        · right; exact h4

theorem replaceOrAppend_ne_nil (fs : List FileRef) (nf : FileRef) :
    replaceOrAppendFile fs nf ≠ [] := by
  cases fs with
  | nil => rw [replaceOrAppend_nil]; exact List.cons_ne_nil _ _
  | cons f rest =>
    rw [replaceOrAppend_cons]
    split
    · exact List.cons_ne_nil _ _
    · exact List.cons_ne_nil _ _

/-- After replace-or-append on a list with pairwise distinct types, the
new entry is the unique entry of its type and types stay distinct. -/
theorem replaceOrAppend_filter (fs : List FileRef) (nf : FileRef)
    (hnd : (fs.map FileRef.type).Nodup) :
    (replaceOrAppendFile fs nf).filter (fun f => f.type == nf.type) = [nf] ∧
      ((replaceOrAppendFile fs nf).map FileRef.type).Nodup := by
  induction fs with
  | nil =>
    rw [replaceOrAppend_nil]
    constructor
    · rw [List.filter_cons, if_pos (by simp)]
      rfl
    · simp
  | cons f rest ih =>
    rw [replaceOrAppend_cons]
    simp only [List.map_cons, List.nodup_cons] at hnd
    obtain ⟨hf, hrest⟩ := hnd
    by_cases hc : (f.type == nf.type) = true
    · rw [if_pos hc]
      have hteq : f.type = nf.type := by simpa using hc
      constructor
      · rw [List.filter_cons, if_pos (by simp)]
        have hempty : rest.filter (fun g => g.type == nf.type) = [] := by
          rw [List.filter_eq_nil_iff]
          intro g hg
          intro hcon
          have : g.type = f.type := by rw [hteq]; simpa using hcon
          exact hf (this ▸ List.mem_map_of_mem FileRef.type hg)
        rw [hempty]
      · simp only [List.map_cons, List.nodup_cons]
        exact ⟨hteq ▸ hf, hrest⟩
    · rw [if_neg hc]
      obtain ⟨ih1, ih2⟩ := ih hrest
      constructor
      · rw [List.filter_cons, if_neg (by simpa using hc), ih1]
      · simp only [List.map_cons, List.nodup_cons]
        refine ⟨?_, ih2⟩
        intro hmem
        obtain ⟨g, hg, hgt⟩ := List.mem_map.mp hmem
        rcases mem_replaceOrAppend hg with h1 | h2
        · exact hf (List.mem_map.mpr ⟨g, h1, hgt⟩)
        · rw [h2] at hgt
          exact hc (by rw [hgt]; simp)

/-! ## `get_files` and `add_file` on structured documents -/

theorem get_files_content_spec (P T S : Str)
    (h1 : occursB filesPat (P ++ filesPat.dropLast) = false)
    (h2 : occursB linksClose (T ++ linksClose.dropLast) = false) :
    get_files_content (P ++ (filesPat ++ (T ++ (linksClose ++ S)))) = parseFileRows T := by
  unfold get_files_content
  rw [searchLazy0_spec P T S (by decide) (by decide) h1 h2]

theorem add_file_content_spec (P T S file_type filename folder : Str)
    (h1 : occursB filesPat (P ++ filesPat.dropLast) = false)
    (h2 : occursB linksClose (T ++ linksClose.dropLast) = false)
    (h3 : occursB filesPat S = false) :
    add_file_content (P ++ (filesPat ++ (T ++ (linksClose ++ S)))) file_type filename folder =
      P ++ (filesPat ++
        (build_files_table_from_list
            (replaceOrAppendFile (parseFileRows T) ⟨file_type, filename, folder⟩) ++
          (linksClose ++ S))) := by
  unfold add_file_content subLazyAll
  rw [get_files_content_spec P T S h1 h2]
  exact subLazyAux_spec false _ (by decide) (by decide) P _ T S h1 h2 h3
    (fun hcon => by cases hcon) (le_refl _)

/-- A clean table body never contains the Links closing marker. -/
theorem table_no_linksClose (fs : List FileRef) (hne : fs ≠ [])
    (h : ∀ f ∈ fs, cleanRef f = true) :
    occursB linksClose (build_files_table_from_list fs ++ linksClose.dropLast) = false := by
  cases fs with
  | nil => exact absurd rfl hne
  | cons f0 fs' =>
    rw [build_table_eq]
    apply occursB_linksClose_false
    refine (nn_false_join (sepLine :: (f0 :: fs').map rowOf) headerLine ?_).1
    intro x hx
    rcases List.mem_cons.mp hx with hx | hx
    · rw [hx]; exact ⟨by decide, by decide⟩
    · rcases List.mem_cons.mp hx with hx | hx
      · rw [hx]; exact ⟨by decide, by decide⟩
      · obtain ⟨g, hg, hgx⟩ := List.mem_map.mp hx
        rw [← hgx]
        exact ⟨rowOf_ne_nil g, rowOf_no_nl (h g hg)⟩

/-! ## The MULTILINE count-one title substitution -/

theorem splitOnChar_ne_nil (sep : Char) : ∀ s : Str, splitOnChar sep s ≠ [] := by
  intro s
  cases s with
  | nil => exact List.cons_ne_nil _ _
  | cons c rest =>
    rw [splitOnChar]
    split
    · exact List.cons_ne_nil _ _
    · split
      · exact List.cons_ne_nil _ _
      · exact List.cons_ne_nil _ _

theorem joinNL_splitOnChar : ∀ s : Str, joinNL (splitOnChar '\n' s) = s := by
  intro s
  induction s with
  | nil => rfl
  | cons c rest ih =>
    rw [splitOnChar]
    by_cases hc : c = '\n'
    · rw [if_pos hc, hc]
      cases hsp : splitOnChar '\n' rest with
      | nil => exact absurd hsp (splitOnChar_ne_nil '\n' rest)
      | cons h t =>
        show [] ++ '\n' :: joinNL (h :: t) = '\n' :: rest
        rw [← hsp, ih]
        rfl
    · rw [if_neg hc]
      cases hsp : splitOnChar '\n' rest with
      | nil => exact absurd hsp (splitOnChar_ne_nil '\n' rest)
      | cons h t =>
        rw [hsp] at ih
        cases t with
        | nil =>
          show c :: h = c :: rest
          have hh : h = rest := ih
          rw [hh]
        | cons h2 t2 =>
          show (c :: h) ++ '\n' :: joinNL (h2 :: t2) = c :: rest
          have hh : h ++ '\n' :: joinNL (h2 :: t2) = rest := ih
          rw [List.cons_append, hh]

/-- The `count=1` MULTILINE title substitution on a document whose
first line is a matching title heading replaces exactly that line. -/
theorem subTitleOnce_spec (t0 nt R : Str) (ht0 : t0 ≠ []) (ht0nl : ¬ '\n' ∈ t0) :
    subTitleOnce nt ((lit "# " ++ t0) ++ '\n' :: R) = (lit "# " ++ nt) ++ '\n' :: R := by
  unfold subTitleOnce
  rw [splitOnChar_append _ (by
    intro hm
    rcases List.mem_append.mp hm with hm | hm
    · exact absurd hm (by decide)
    · exact ht0nl hm)]
  rw [replaceFirstTitleLine, if_pos (by
    rw [titleLineMatch, Bool.and_eq_true]
    constructor
    · exact isPrefixOf_append_self _ _
    · rw [List.length_append]
      have h1 : (lit "# ").length = 2 := by decide
      have h2 : 1 ≤ t0.length := List.length_pos.mpr ht0
      rw [decide_eq_true_iff]
      omega)]
  cases hsp : splitOnChar '\n' R with
  | nil => exact absurd hsp (splitOnChar_ne_nil '\n' R)
  | cons h t =>
    show (lit "# " ++ nt) ++ '\n' :: joinNL (h :: t) = _
    rw [← hsp, joinNL_splitOnChar]

/-! ## Library flag reconciliation -/

theorem recStep_hv (a : ScanAcc) (f : FileRef) :
    (recStep a f).has_video = (a.has_video || (f.type == lit "video")) := by
  unfold recStep
  by_cases h : (f.type == lit "video") = true
  · rw [if_pos h, h]; simp
  · rw [if_neg h]
    rw [Bool.not_eq_true] at h
    rw [h]
    by_cases h2 : (f.type == lit "audio") = true
    · rw [if_pos h2]; simp
    · rw [if_neg h2]; simp

theorem recStep_ha (a : ScanAcc) (f : FileRef) :
    (recStep a f).has_audio = (a.has_audio || (f.type == lit "audio")) := by
  unfold recStep
  by_cases h : (f.type == lit "video") = true
  · rw [if_pos h]
    have h2 : (f.type == lit "audio") = false := by
      rw [beq_iff_eq] at h
      rw [h]
      decide
    rw [h2]
    simp
  · rw [if_neg h]
    by_cases h2 : (f.type == lit "audio") = true
    · rw [if_pos h2, h2]; simp
    · rw [if_neg h2]
      rw [Bool.not_eq_true] at h2
      rw [h2]
      simp

theorem foldl_recStep_hv : ∀ (fs : List FileRef) (a : ScanAcc),
    (fs.foldl recStep a).has_video = (a.has_video || fs.any (fun f => f.type == lit "video")) := by
  intro fs
  induction fs with
  | nil => intro a; simp
  | cons f fs' ih =>
    intro a
    rw [List.foldl_cons, ih, List.any_cons, recStep_hv]
    rw [Bool.or_assoc]

theorem foldl_recStep_ha : ∀ (fs : List FileRef) (a : ScanAcc),
    (fs.foldl recStep a).has_audio = (a.has_audio || fs.any (fun f => f.type == lit "audio")) := by
  intro fs
  induction fs with
  | nil => intro a; simp
  | cons f fs' ih =>
    intro a
    rw [List.foldl_cons, ih, List.any_cons, recStep_ha]
    rw [Bool.or_assoc]

theorem ffStep_hv (video_id title fname : Str) (a : ScanAcc) (f : Str) :
    (ffStep video_id title fname a f).has_video =
      (a.has_video || (nameMatches video_id title f && isVideoExtB f)) := by
  unfold ffStep
  by_cases h : nameMatches video_id title f = true
  · rw [if_pos h, h]
    by_cases h2 : isVideoExtB f = true
    · rw [if_pos h2, h2]; simp
    · rw [if_neg h2]
      rw [Bool.not_eq_true] at h2
      rw [h2]
      by_cases h3 : isAudioExtB f = true
      · rw [if_pos h3]; simp
      · rw [if_neg h3]; simp
  · rw [if_neg h]
    rw [Bool.not_eq_true] at h
    rw [h]
    simp

theorem ffStep_ha (video_id title fname : Str) (a : ScanAcc) (f : Str) :
    (ffStep video_id title fname a f).has_audio =
      (a.has_audio || (nameMatches video_id title f && isAudioExtB f)) := by
  unfold ffStep
  by_cases h : nameMatches video_id title f = true
  · rw [if_pos h, h]
    by_cases h2 : isVideoExtB f = true
    · rw [if_pos h2]
      have h3 : isAudioExtB f = false := by
        rw [isVideoExtB, decide_eq_true_iff] at h2
        rw [isAudioExtB, decide_eq_false_iff_not]
        intro hcon
        rcases h2 with h2 | h2 | h2 <;> rw [hcon] at h2 <;> exact absurd h2 (by decide)
      rw [h3]
      simp
    · rw [if_neg h2]
      by_cases h3 : isAudioExtB f = true
      · rw [if_pos h3, h3]; simp
      · rw [if_neg h3]
        rw [Bool.not_eq_true] at h3
        rw [h3]
        simp
  · rw [if_neg h]
    rw [Bool.not_eq_true] at h
    rw [h]
    simp

theorem foldl_ffStep_hv (video_id title fname : Str) : ∀ (files : List Str) (a : ScanAcc),
    (files.foldl (ffStep video_id title fname) a).has_video =
      (a.has_video || files.any (fun f => nameMatches video_id title f && isVideoExtB f)) := by
  intro files
  induction files with
  | nil => intro a; simp
  | cons f files' ih =>
    intro a
    rw [List.foldl_cons, ih, List.any_cons, ffStep_hv]
    rw [Bool.or_assoc]

theorem foldl_ffStep_ha (video_id title fname : Str) : ∀ (files : List Str) (a : ScanAcc),
    (files.foldl (ffStep video_id title fname) a).has_audio =
      (a.has_audio || files.any (fun f => nameMatches video_id title f && isAudioExtB f)) := by
  intro files
  induction files with
  | nil => intro a; simp
  | cons f files' ih =>
    intro a
    rw [List.foldl_cons, ih, List.any_cons, ffStep_ha]
    rw [Bool.or_assoc]

theorem ffFolder_hv (st : FMState) (video_id title : Str) (acc : ScanAcc) (fname : Str) :
    (ffFolder st video_id title acc fname).has_video =
      (acc.has_video ||
        folderScanAny st (fun f => nameMatches video_id title f && isVideoExtB f) fname) := by
  unfold ffFolder folderScanAny
  cases lookupFolder st fname with
  | none => simp
  | some files => rw [foldl_ffStep_hv]

theorem ffFolder_ha (st : FMState) (video_id title : Str) (acc : ScanAcc) (fname : Str) :
    (ffFolder st video_id title acc fname).has_audio =
      (acc.has_audio ||
        folderScanAny st (fun f => nameMatches video_id title f && isAudioExtB f) fname) := by
  unfold ffFolder folderScanAny
  cases lookupFolder st fname with
  | none => simp
  | some files => rw [foldl_ffStep_ha]

theorem foldl_ffFolder_hv (st : FMState) (video_id title : Str) : ∀ (fl : List Str) (a : ScanAcc),
    (fl.foldl (ffFolder st video_id title) a).has_video =
      (a.has_video ||
        fl.any (folderScanAny st (fun f => nameMatches video_id title f && isVideoExtB f))) := by
  intro fl
  induction fl with
  | nil => intro a; simp
  | cons fname fl' ih =>
    intro a
    rw [List.foldl_cons, ih, List.any_cons, ffFolder_hv]
    rw [Bool.or_assoc]

theorem foldl_ffFolder_ha (st : FMState) (video_id title : Str) : ∀ (fl : List Str) (a : ScanAcc),
    (fl.foldl (ffFolder st video_id title) a).has_audio =
      (a.has_audio ||
        fl.any (folderScanAny st (fun f => nameMatches video_id title f && isAudioExtB f))) := by
  intro fl
  induction fl with
  | nil => intro a; simp
  | cons fname fl' ih =>
    intro a
    rw [List.foldl_cons, ih, List.any_cons, ffFolder_ha]
    rw [Bool.or_assoc]

theorem find_files_hv (st : FMState) (video_id title : Str) :
    (find_files_for_video_id st video_id title).has_video =
      (get_folders st).any
        (folderScanAny st (fun f => nameMatches video_id title f && isVideoExtB f)) := by
  unfold find_files_for_video_id
  rw [foldl_ffFolder_hv]
  rfl

theorem find_files_ha (st : FMState) (video_id title : Str) :
    (find_files_for_video_id st video_id title).has_audio =
      (get_folders st).any
        (folderScanAny st (fun f => nameMatches video_id title f && isAudioExtB f)) := by
  unfold find_files_for_video_id
  rw [foldl_ffFolder_ha]
  rfl

/-! ## The collision-resolution loop of `delete_folder` -/

theorem isDigitB_digitChar (d : Nat) : isDigitB (digitChar d) = true := by
  by_cases h : d < 10
  · interval_cases d <;> decide
  · rw [digitChar, List.getD_eq_default]
    · decide
    · have h10 : digitChars.length = 10 := by decide
      omega

theorem digitVal_digitChar {d : Nat} (h : d < 10) : digitVal (digitChar d) = d := by
  interval_cases d <;> decide

theorem natToStrAux_ne_nil (fuel n : Nat) : natToStrAux fuel n ≠ [] := by
  cases fuel with
  | zero => simp [natToStrAux]
  | succ f =>
    rw [natToStrAux]
    by_cases h : n < 10
    · simp [h]
    · simp [h]

theorem natToStr_ne_nil (n : Nat) : natToStr n ≠ [] := natToStrAux_ne_nil n n

theorem natToStrAux_digits (fuel : Nat) :
    ∀ n, ∀ c ∈ natToStrAux fuel n, isDigitB c = true := by
  induction fuel with
  | zero =>
    intro n c hc
    rw [natToStrAux] at hc
    simp only [List.mem_singleton] at hc
    exact hc ▸ isDigitB_digitChar n
  | succ f ih =>
    intro n c hc
    rw [natToStrAux] at hc
    by_cases h : n < 10
    · rw [if_pos h] at hc
      simp only [List.mem_singleton] at hc
      exact hc ▸ isDigitB_digitChar n
    · rw [if_neg h] at hc
      rcases List.mem_append.mp hc with h2 | h2
      · exact ih _ c h2
      · simp only [List.mem_singleton] at h2
        exact h2 ▸ isDigitB_digitChar _

theorem natToStrAux_val (fuel : Nat) :
    ∀ n, n ≤ fuel →
      (natToStrAux fuel n).foldl (fun a c => a * 10 + digitVal c) 0 = n := by
  induction fuel with
  | zero =>
    intro n hn
    interval_cases n
    decide
  | succ f ih =>
    intro n hn
    rw [natToStrAux]
    by_cases h : n < 10
    · rw [if_pos h]
      simp [List.foldl, digitVal_digitChar h]
    · rw [if_neg h]
      rw [List.foldl_append]
      rw [ih (n / 10) (by omega)]
      simp only [List.foldl]
      rw [digitVal_digitChar (Nat.mod_lt n (by omega))]
      omega

theorem strToNat_natToStr (n : Nat) : strToNat (natToStr n) = some n := by
  rw [strToNat, if_pos]
  · rw [natToStr, natToStrAux_val n n le_rfl]
  · refine ⟨natToStrAux_ne_nil n n, ?_⟩
    rw [List.all_eq_true]
    exact fun c hc => natToStrAux_digits n n c hc

theorem natToStr_mem_digit {n : Nat} {c : Char} (h : c ∈ natToStr n) :
    isDigitB c = true := natToStrAux_digits n n c h


theorem natToStr_inj {a b : Nat} (h : natToStr a = natToStr b) : a = b := by
  have := congrArg strToNat h
  rw [strToNat_natToStr, strToNat_natToStr] at this
  exact Option.some.inj this

theorem suffixCandidate_inj (base ext : Str) :
    Function.Injective (suffixCandidate base ext) := by
  intro a b h
  unfold suffixCandidate at h
  have h2 := List.append_cancel_left (List.append_cancel_right h)
  simp only [List.cons.injEq, true_and] at h2
  exact natToStr_inj h2

theorem findFreeName_mem_shape : ∀ (fuel k : Nat) (names : List Str) (base ext : Str),
    ∃ j, k ≤ j ∧ findFreeName names base ext fuel k = suffixCandidate base ext j := by
  intro fuel
  induction fuel with
  | zero =>
    intro k names base ext
    exact ⟨k, le_refl k, rfl⟩
  | succ fuel ih =>
    intro k names base ext
    rw [findFreeName]
    by_cases h : suffixCandidate base ext k ∈ names
    · rw [if_pos h]
      obtain ⟨j, hj1, hj2⟩ := ih (k + 1) names base ext
      exact ⟨j, by omega, hj2⟩
    · rw [if_neg h]
      exact ⟨k, le_refl k, rfl⟩

theorem findFreeName_not_mem : ∀ (fuel k : Nat) (names : List Str) (base ext : Str),
    (∃ i, i ≤ fuel ∧ ¬ suffixCandidate base ext (k + i) ∈ names) →
    ¬ findFreeName names base ext fuel k ∈ names := by
  intro fuel
  induction fuel with
  | zero =>
    intro k names base ext ⟨i, hi, hmem⟩
    have : i = 0 := by omega
    rw [this, Nat.add_zero] at hmem
    exact hmem
  | succ fuel ih =>
    intro k names base ext ⟨i, hi, hmem⟩
    rw [findFreeName]
    by_cases h : suffixCandidate base ext k ∈ names
    · rw [if_pos h]
      have hi0 : i ≠ 0 := by
        intro hcon
        rw [hcon, Nat.add_zero] at hmem
        exact hmem h
      refine ih (k + 1) names base ext ⟨i - 1, by omega, ?_⟩
      rw [show k + 1 + (i - 1) = k + i from by omega]
      exact hmem
    · rw [if_neg h]
      exact h

theorem exists_free_suffix (names : List Str) (base ext : Str) :
    ∃ i, i ≤ names.length + 1 ∧ ¬ suffixCandidate base ext (1 + i) ∈ names := by
  by_contra hcon
  push_neg at hcon
  have hsub : ((List.range (names.length + 2)).map
      (fun i => suffixCandidate base ext (1 + i))) ⊆ names := by
    intro x hx
    obtain ⟨i, hi, hix⟩ := List.mem_map.mp hx
    rw [List.mem_range] at hi
    rw [← hix]
    exact hcon i (by omega)
  have hnd : ((List.range (names.length + 2)).map
      (fun i => suffixCandidate base ext (1 + i))).Nodup :=
    (List.nodup_range _).map
      (fun a b h => by
        have := suffixCandidate_inj base ext h
        omega)
  have hlen := (List.subperm_of_subset hnd hsub).length_le
  simp only [List.length_map, List.length_range] at hlen
  omega

theorem resolveCollision_not_mem (names : List Str) (f : Str) :
    ¬ resolveCollision names f ∈ names := by
  unfold resolveCollision
  by_cases h : f ∈ names
  · rw [if_pos h]
    obtain ⟨i, hi, hmem⟩ := exists_free_suffix names (splitextRoot f) (splitextExt f)
    exact findFreeName_not_mem (names.length + 1) 1 names _ _ ⟨i, hi, hmem⟩
  · rw [if_neg h]
    exact h

theorem moveAll_count : ∀ (files inbox : List Str),
    (moveAll inbox files).2 = files.length := by
  intro files
  induction files with
  | nil => intro inbox; rfl
  | cons f fs ih =>
    intro inbox
    show (moveAll (inbox ++ [resolveCollision inbox f]) fs).2 + 1 = fs.length + 1
    rw [ih]

theorem moveAll_length : ∀ (files inbox : List Str),
    (moveAll inbox files).1.length = inbox.length + files.length := by
  intro files
  induction files with
  | nil => intro inbox; simp [moveAll]
  | cons f fs ih =>
    intro inbox
    show (moveAll (inbox ++ [resolveCollision inbox f]) fs).1.length = _
    rw [ih]
    simp
    omega

theorem moveAll_nodup : ∀ (files inbox : List Str), inbox.Nodup →
    (moveAll inbox files).1.Nodup := by
  intro files
  induction files with
  | nil => intro inbox h; exact h
  | cons f fs ih =>
    intro inbox h
    show (moveAll (inbox ++ [resolveCollision inbox f]) fs).1.Nodup
    refine ih _ ?_
    simp [List.nodup_append, h, resolveCollision_not_mem inbox f]

theorem moveAll_mem : ∀ (files inbox : List Str) (g : Str), g ∈ (moveAll inbox files).1 →
    g ∈ inbox ∨ ∃ f ∈ files, g = f ∨
      ∃ k, 1 ≤ k ∧ g = splitextRoot f ++ '_' :: natToStr k ++ splitextExt f := by
  intro files
  induction files with
  | nil =>
    intro inbox g hg
    left
    exact hg
  | cons f fs ih =>
    intro inbox g hg
    have hg2 : g ∈ (moveAll (inbox ++ [resolveCollision inbox f]) fs).1 := hg
    rcases ih _ g hg2 with hm | ⟨f2, hf2, hc⟩
    · rcases List.mem_append.mp hm with hm | hm
      · left; exact hm
      · right
        refine ⟨f, List.mem_cons_self f fs, ?_⟩
        have hgr : g = resolveCollision inbox f := by simpa using hm
        unfold resolveCollision at hgr
        by_cases h : f ∈ inbox
        · rw [if_pos h] at hgr
          obtain ⟨j, hj1, hj2⟩ :=
            findFreeName_mem_shape (inbox.length + 1) 1 inbox (splitextRoot f) (splitextExt f)
          right
          exact ⟨j, hj1, by rw [hgr, hj2]; rfl⟩
        · rw [if_neg h] at hgr
          left
          exact hgr
    · right
      exact ⟨f2, List.mem_cons_of_mem _ hf2, hc⟩

/-! ## Folder-store lookups after delete -/

theorem find?_remove_self (name : Str) : ∀ fs : List (Str × List Str),
    (removeFolder name fs).find? (fun p => p.1 == name) = none := by
  intro fs
  induction fs with
  | nil => rfl
  | cons p fs ih =>
    unfold removeFolder
    rw [List.filter_cons]
    by_cases h : p.1 = name
    · rw [if_neg (by simpa using h)]
      exact ih
    · rw [if_pos (by simpa using h)]
      rw [List.find?_cons_of_neg _ (by simpa using h)]
      exact ih

theorem removeFolder_cons (name : Str) (p : Str × List Str) (fs : List (Str × List Str)) :
    removeFolder name (p :: fs) =
      if p.1 = name then removeFolder name fs else p :: removeFolder name fs := by
  unfold removeFolder
  rw [List.filter_cons]
  by_cases h : p.1 = name
  · rw [if_pos h, if_neg (by simpa using h)]
  · rw [if_neg h, if_pos (by simpa using h)]

theorem find?_remove_ne (name q : Str) (hq : ¬ q = name) : ∀ fs : List (Str × List Str),
    (removeFolder name fs).find? (fun p => p.1 == q) = fs.find? (fun p => p.1 == q) := by
  intro fs
  induction fs with
  | nil => rfl
  | cons p fs ih =>
    rw [removeFolder_cons]
    by_cases h : p.1 = name
    · rw [if_pos h]
      rw [List.find?_cons_of_neg _ (by
        rw [h]
        intro hcon
        exact hq (Eq.symm (beq_iff_eq.mp hcon)))]
      exact ih
    · rw [if_neg h]
      by_cases h2 : p.1 = q
      · rw [List.find?_cons_of_pos _ (by simpa using h2),
          List.find?_cons_of_pos _ (by simpa using h2)]
      · rw [List.find?_cons_of_neg _ (by simpa using h2),
          List.find?_cons_of_neg _ (by simpa using h2)]
        exact ih

theorem find?_set (d : Str) (v : List Str) : ∀ fs : List (Str × List Str),
    (fs.find? (fun p => p.1 == d)).isSome →
    (setFolder d v fs).find? (fun p => p.1 == d) = some (d, v) := by
  intro fs
  induction fs with
  | nil => intro h; cases h
  | cons p fs ih =>
    intro h
    unfold setFolder
    rw [List.map_cons]
    by_cases hp : p.1 = d
    · rw [if_pos hp]
      rw [List.find?_cons_of_pos _ (by simp)]
    · rw [if_neg hp]
      rw [List.find?_cons_of_neg _ (by simpa using hp)]
      refine ih ?_
      rw [List.find?_cons_of_neg _ (by simpa using hp)] at h
      exact h

/-! # Claims -/

/-- C3: on a well-formed record document, adding a file of kind `k`
with filename `a` and then adding kind `k` with filename `b` leaves the
Files section with exactly one row of kind `k`, whose filename is `b`
(and folder the second call's folder); and the resulting table never
holds two rows of the same kind. -/
theorem C3_add_file_replaces (P T S k a b d1 d2 : Str)
    (h1 : occursB filesPat (P ++ filesPat.dropLast) = false)
    (h2 : occursB linksClose (T ++ linksClose.dropLast) = false)
    (h3 : occursB filesPat S = false)
    (hclean : ∀ f ∈ parseFileRows T, cleanRef f = true)
    (hnd : ((parseFileRows T).map FileRef.type).Nodup)
    (ha : cleanRef ⟨k, a, d1⟩ = true)
    (hb : cleanRef ⟨k, b, d2⟩ = true) :
    (get_files_content
        (add_file_content
          (add_file_content (P ++ (filesPat ++ (T ++ (linksClose ++ S)))) k a d1)
          k b d2)).filter (fun f => f.type == k) = [(⟨k, b, d2⟩ : FileRef)] ∧
    ((get_files_content
        (add_file_content
          (add_file_content (P ++ (filesPat ++ (T ++ (linksClose ++ S)))) k a d1)
          k b d2)).map FileRef.type).Nodup := by
  have hfs1clean : ∀ f ∈ replaceOrAppendFile (parseFileRows T) ⟨k, a, d1⟩,
      cleanRef f = true := by
    intro f hf
    rcases mem_replaceOrAppend hf with hm | hm
    · exact hclean f hm
    · rw [hm]; exact ha
  have step1 := add_file_content_spec P T S k a d1 h1 h2 h3
  have h2b : occursB linksClose
      (build_files_table_from_list (replaceOrAppendFile (parseFileRows T) ⟨k, a, d1⟩) ++
        linksClose.dropLast) = false :=
    table_no_linksClose _ (replaceOrAppend_ne_nil _ _) hfs1clean
  have hparse1 := parseFileRows_render _ hfs1clean
  have hfs2clean : ∀ f ∈ replaceOrAppendFile
      (replaceOrAppendFile (parseFileRows T) ⟨k, a, d1⟩) ⟨k, b, d2⟩, cleanRef f = true := by
    intro f hf
    rcases mem_replaceOrAppend hf with hm | hm
    · exact hfs1clean f hm
    · rw [hm]; exact hb
  have step2 := add_file_content_spec P
    (build_files_table_from_list (replaceOrAppendFile (parseFileRows T) ⟨k, a, d1⟩))
    S k b d2 h1 h2b h3
  rw [hparse1] at step2
  have h2c : occursB linksClose
      (build_files_table_from_list
          (replaceOrAppendFile (replaceOrAppendFile (parseFileRows T) ⟨k, a, d1⟩) ⟨k, b, d2⟩) ++
        linksClose.dropLast) = false :=
    table_no_linksClose _ (replaceOrAppend_ne_nil _ _) hfs2clean
  have hparse2 := parseFileRows_render _ hfs2clean
  have hfinal := get_files_content_spec P
    (build_files_table_from_list
      (replaceOrAppendFile (replaceOrAppendFile (parseFileRows T) ⟨k, a, d1⟩) ⟨k, b, d2⟩))
    S h1 h2c
  rw [hparse2] at hfinal
  rw [step1, step2, hfinal]
  have hnd1 := (replaceOrAppend_filter (parseFileRows T) ⟨k, a, d1⟩ hnd).2
  exact replaceOrAppend_filter _ ⟨k, b, d2⟩ hnd1

/-- C5: deleting an existing non-default folder succeeds, reports the
folder's file count in the message, removes the folder from the tree,
and replaces the default folder's listing with the move result, which
holds one entry per moved file (old length plus N), all pairwise
distinct, each either the original name or `base_k ++ ext` for some
`k ≥ 1` splitting the name at its extension. -/
theorem C5_delete_folder (st : FMState) (name : Str) (files inbox : List Str)
    (hc : st.configured = true)
    (hnd : ¬ name = default_folder st)
    (hlf : lookupFolder st name = some files)
    (hli : lookupFolder st (default_folder st) = some inbox)
    (hinb : inbox.Nodup) :
    (delete_folder st name).1.1 = true ∧
    (delete_folder st name).1.2 =
      natToStr files.length ++ lit "개의 동영상이 " ++ default_folder st ++
        lit "로 이동되었습니다." ∧
    lookupFolder (delete_folder st name).2 name = none ∧
    lookupFolder (delete_folder st name).2 (default_folder st) =
      some (moveAll inbox files).1 ∧
    (moveAll inbox files).1.length = inbox.length + files.length ∧
    (moveAll inbox files).1.Nodup ∧
    (∀ g ∈ (moveAll inbox files).1, g ∈ inbox ∨ ∃ f ∈ files, g = f ∨
      ∃ k, 1 ≤ k ∧ g = splitextRoot f ++ '_' :: natToStr k ++ splitextExt f) := by
  have hred : delete_folder st name =
      ((true, natToStr (moveAll inbox files).2 ++ lit "개의 동영상이 " ++ default_folder st ++
          lit "로 이동되었습니다."),
       { st with folders := removeFolder name (setFolder (default_folder st) (moveAll inbox files).1 st.folders) }) := by
    unfold delete_folder
    rw [hc]
    rw [if_neg (fun h => h rfl)]
    rw [if_neg hnd]
    rw [hlf, hli]
  rw [hred]
  have hisSome : (st.folders.find? (fun p => p.1 == default_folder st)).isSome := by
    unfold lookupFolder at hli
    cases hfind : st.folders.find? (fun p => p.1 == default_folder st) with
    | none => rw [hfind] at hli; cases hli
    | some e => rfl
  refine ⟨rfl, ?_, ?_, ?_, moveAll_length files inbox, moveAll_nodup files inbox hinb,
    moveAll_mem files inbox⟩
  · show natToStr (moveAll inbox files).2 ++ lit "개의 동영상이 " ++ default_folder st ++
        lit "로 이동되었습니다." =
      natToStr files.length ++ lit "개의 동영상이 " ++ default_folder st ++
        lit "로 이동되었습니다."
    rw [moveAll_count]
  · show (((removeFolder name
        (setFolder (default_folder st) (moveAll inbox files).1 st.folders)).find?
          (fun p => p.1 == name)).map (·.2)) = none
    rw [find?_remove_self]
    rfl
  · show (((removeFolder name
        (setFolder (default_folder st) (moveAll inbox files).1 st.folders)).find?
          (fun p => p.1 == default_folder st)).map (·.2)) = some (moveAll inbox files).1
    rw [find?_remove_ne name (default_folder st) (fun e => hnd e.symm)]
    rw [find?_set (default_folder st) (moveAll inbox files).1 st.folders hisSome]
    rfl

set_option maxRecDepth 100000 in
theorem C5_witness :
    (delete_folder sampleFM (lit "F")).1.1 = true ∧
    (delete_folder sampleFM (lit "F")).1.2 =
      natToStr 2 ++ lit "개의 동영상이 " ++ default_folder sampleFM ++
        lit "로 이동되었습니다." ∧
    lookupFolder (delete_folder sampleFM (lit "F")).2 (lit "F") = none ∧
    lookupFolder (delete_folder sampleFM (lit "F")).2 (default_folder sampleFM) =
      some (moveAll [lit "a.mp4"] [lit "a.mp4", lit "b.mkv"]).1 ∧
    (moveAll [lit "a.mp4"] [lit "a.mp4", lit "b.mkv"]).1.length = 1 + 2 ∧
    (moveAll [lit "a.mp4"] [lit "a.mp4", lit "b.mkv"]).1.Nodup ∧
    (∀ g ∈ (moveAll [lit "a.mp4"] [lit "a.mp4", lit "b.mkv"]).1,
      g ∈ [lit "a.mp4"] ∨ ∃ f ∈ [lit "a.mp4", lit "b.mkv"], g = f ∨
        ∃ k, 1 ≤ k ∧ g = splitextRoot f ++ '_' :: natToStr k ++ splitextExt f) :=
  C5_delete_folder sampleFM (lit "F") [lit "a.mp4", lit "b.mkv"] [lit "a.mp4"]
    (by decide) (by decide) (by decide) (by decide) (by decide)

set_option maxRecDepth 100000 in
/-- C8 counterexample: updating the title to a value ending in
`## Description` plants the description heading inside the title line;
the subsequent all-occurrences description substitution then matches
from the title line and swallows every section up to the first
`\n\n---`, so the Tags heading (and the whole middle of the document)
is destroyed rather than preserved. -/
theorem C8_counterexample :
    occursB (lit "## Tags") smallDoc = true ∧
    occursB (lit "## Tags")
      (update_metadata_content smallDoc
        (some (lit "x ## Description")) (some (lit "D2"))) = false := by
  constructor
  · decide
  · decide

/-- C8 (amended): on a canonically shaped record whose new title does
not re-introduce the description heading (and whose parts contain no
stray section markers), updating title and/or description rewrites
exactly the title line text and the description body; the prefix
marker, the whole middle `M` (info table, tags, files, links), the
closing marker and the trailing part `E` are byte-for-byte
preserved. -/
theorem C8_update_frame (t0 nt nd M D0 E : Str)
    (ht0 : t0 ≠ []) (ht0nl : ¬ '\n' ∈ t0)
    (h1n : occursB (lit "## Description\n\n")
        (((lit "# " ++ nt) ++ '\n' :: M) ++ (lit "## Description\n\n").dropLast) = false)
    (h1t : occursB (lit "## Description\n\n")
        (((lit "# " ++ t0) ++ '\n' :: M) ++ (lit "## Description\n\n").dropLast) = false)
    (h2 : occursB (lit "\n\n---") (D0 ++ (lit "\n\n---").dropLast) = false)
    (h3 : occursB (lit "## Description\n\n") E = false)
    (hD0 : D0 ≠ [])
    (hkorN : occursB (lit "## 상세 정보\n\n")
        (((lit "# " ++ nt) ++ '\n' :: M) ++
          (lit "## Description\n\n" ++ (nd ++ (lit "\n\n---" ++ E)))) = false)
    (hkorT : occursB (lit "## 상세 정보\n\n")
        (((lit "# " ++ t0) ++ '\n' :: M) ++
          (lit "## Description\n\n" ++ (nd ++ (lit "\n\n---" ++ E)))) = false) :
    update_metadata_content
        ((lit "# " ++ t0) ++ '\n' ::
          (M ++ (lit "## Description\n\n" ++ (D0 ++ (lit "\n\n---" ++ E)))))
        (some nt) (some nd) =
      (lit "# " ++ nt) ++ '\n' ::
        (M ++ (lit "## Description\n\n" ++ (nd ++ (lit "\n\n---" ++ E)))) ∧
    update_metadata_content
        ((lit "# " ++ t0) ++ '\n' ::
          (M ++ (lit "## Description\n\n" ++ (D0 ++ (lit "\n\n---" ++ E)))))
        (some nt) none =
      (lit "# " ++ nt) ++ '\n' ::
        (M ++ (lit "## Description\n\n" ++ (D0 ++ (lit "\n\n---" ++ E)))) ∧
    update_metadata_content
        ((lit "# " ++ t0) ++ '\n' ::
          (M ++ (lit "## Description\n\n" ++ (D0 ++ (lit "\n\n---" ++ E)))))
        none (some nd) =
      (lit "# " ++ t0) ++ '\n' ::
        (M ++ (lit "## Description\n\n" ++ (nd ++ (lit "\n\n---" ++ E)))) := by
  have hassocT : ∀ X : Str, (lit "# " ++ t0) ++ '\n' :: (M ++ X) =
      ((lit "# " ++ t0) ++ '\n' :: M) ++ X := by
    intro X
    simp [List.append_assoc]
  have hassocN : ∀ X : Str, (lit "# " ++ nt) ++ '\n' :: (M ++ X) =
      ((lit "# " ++ nt) ++ '\n' :: M) ++ X := by
    intro X
    simp [List.append_assoc]
  have hdesc : ∀ (P : Str),
      occursB (lit "## Description\n\n") (P ++ (lit "## Description\n\n").dropLast) = false →
      subLazyAll true (lit "## Description\n\n") (lit "\n\n---") nd
        (P ++ (lit "## Description\n\n" ++ (D0 ++ (lit "\n\n---" ++ E)))) =
      P ++ (lit "## Description\n\n" ++ (nd ++ (lit "\n\n---" ++ E))) := by
    intro P h1
    unfold subLazyAll
    exact subLazyAux_spec true nd (by decide) (by decide) P _ D0 E h1 h2 h3
      (fun _ => hD0) (le_refl _)
  have hkor : ∀ (c : Str), occursB (lit "## 상세 정보\n\n") c = false →
      subLazyAll true (lit "## 상세 정보\n\n") (lit "\n\n---") nd c = c := by
    intro c hc
    unfold subLazyAll
    exact subLazyAux_no_occurs true _ _ nd c c.length hc
  refine ⟨?_, ?_, ?_⟩
  · show subLazyAll true (lit "## 상세 정보\n\n") (lit "\n\n---") nd
      (subLazyAll true (lit "## Description\n\n") (lit "\n\n---") nd
        (subTitleOnce nt ((lit "# " ++ t0) ++ '\n' ::
          (M ++ (lit "## Description\n\n" ++ (D0 ++ (lit "\n\n---" ++ E))))))) = _
    rw [subTitleOnce_spec t0 nt _ ht0 ht0nl, hassocN, hdesc _ h1n, hkor _ hkorN, ← hassocN]
  · show subTitleOnce nt ((lit "# " ++ t0) ++ '\n' ::
      (M ++ (lit "## Description\n\n" ++ (D0 ++ (lit "\n\n---" ++ E))))) = _
    rw [subTitleOnce_spec t0 nt _ ht0 ht0nl]
  · show subLazyAll true (lit "## 상세 정보\n\n") (lit "\n\n---") nd
      (subLazyAll true (lit "## Description\n\n") (lit "\n\n---") nd
        ((lit "# " ++ t0) ++ '\n' ::
          (M ++ (lit "## Description\n\n" ++ (D0 ++ (lit "\n\n---" ++ E)))))) = _
    rw [hassocT, hdesc _ h1t, hkor _ hkorT, ← hassocT]

set_option maxRecDepth 100000 in
theorem C8_witness :
    update_metadata_content
        ((lit "# " ++ lit "T") ++ '\n' ::
          (lit "\nm\n\n" ++ (lit "## Description\n\n" ++ (lit "D" ++ (lit "\n\n---" ++ lit "\n*t*")))))
        (some (lit "N")) (some (lit "ND")) =
      (lit "# " ++ lit "N") ++ '\n' ::
        (lit "\nm\n\n" ++ (lit "## Description\n\n" ++ (lit "ND" ++ (lit "\n\n---" ++ lit "\n*t*")))) ∧
    update_metadata_content
        ((lit "# " ++ lit "T") ++ '\n' ::
          (lit "\nm\n\n" ++ (lit "## Description\n\n" ++ (lit "D" ++ (lit "\n\n---" ++ lit "\n*t*")))))
        (some (lit "N")) none =
      (lit "# " ++ lit "N") ++ '\n' ::
        (lit "\nm\n\n" ++ (lit "## Description\n\n" ++ (lit "D" ++ (lit "\n\n---" ++ lit "\n*t*")))) ∧
    update_metadata_content
        ((lit "# " ++ lit "T") ++ '\n' ::
          (lit "\nm\n\n" ++ (lit "## Description\n\n" ++ (lit "D" ++ (lit "\n\n---" ++ lit "\n*t*")))))
        none (some (lit "ND")) =
      (lit "# " ++ lit "T") ++ '\n' ::
        (lit "\nm\n\n" ++ (lit "## Description\n\n" ++ (lit "ND" ++ (lit "\n\n---" ++ lit "\n*t*")))) :=
  C8_update_frame (lit "T") (lit "N") (lit "ND") (lit "\nm\n\n") (lit "D") (lit "\n*t*")
    (by decide) (by decide) (by decide) (by decide) (by decide) (by decide) (by decide)
    (by decide) (by decide)

/-- C6: a listed item's `link_only` flag is true iff no video and no
audio resolved for it after reconciliation: from the record's Files
rows when they are authoritative, and otherwise (empty or
sentinel-only Files) from the legacy folder scan by id or title and
audio/video extension. -/
theorem C6_link_only_iff (st : FMState) (video_id content : Str) :
    library_item_link_only st video_id content = true ↔
      (if filesSentinelOnly (parse_metadata (some content)).files then
        (∀ fname ∈ get_folders st,
          folderScanAny st
            (fun f => nameMatches video_id (parse_metadata (some content)).title f &&
              isVideoExtB f) fname = false) ∧
        (∀ fname ∈ get_folders st,
          folderScanAny st
            (fun f => nameMatches video_id (parse_metadata (some content)).title f &&
              isAudioExtB f) fname = false)
      else
        (∀ f ∈ (parse_metadata (some content)).files, ¬ f.type = lit "video") ∧
        (∀ f ∈ (parse_metadata (some content)).files, ¬ f.type = lit "audio")) := by
  unfold library_item_link_only library_item_flags
  simp only []
  by_cases hs : filesSentinelOnly (parse_metadata (some content)).files = true
  · rw [if_pos hs, if_pos hs]
    rw [Bool.and_eq_true, Bool.not_eq_true', Bool.not_eq_true']
    rw [find_files_hv, find_files_ha]
    simp [List.any_eq_false]
  · rw [if_neg hs, if_neg hs]
    rw [Bool.and_eq_true, Bool.not_eq_true', Bool.not_eq_true']
    unfold recordFilesLoop
    rw [foldl_recStep_hv, foldl_recStep_ha]
    simp [List.any_eq_false]

set_option maxRecDepth 100000 in
theorem C6_witness :
    library_item_link_only sampleFM (lit "vid999") smallDoc = true ∧
    ¬ library_item_link_only sampleFM (lit "vid999")
        (add_file_content smallDoc (lit "video") (lit "v.mp4") (lit "F")) = true :=
  ⟨(C6_link_only_iff sampleFM (lit "vid999") smallDoc).mpr (by decide),
   fun h => absurd
     ((C6_link_only_iff sampleFM (lit "vid999")
        (add_file_content smallDoc (lit "video") (lit "v.mp4") (lit "F"))).mp h)
     (by decide)⟩

theorem C3_witness :
    (get_files_content
        (add_file_content
          (add_file_content (smallPre ++ (filesPat ++ (smallTable ++ (linksClose ++ smallPost))))
            (lit "video") (lit "a.mp4") (lit "F"))
          (lit "video") (lit "b.mp4") (lit "G"))).filter
        (fun f => f.type == lit "video") = [(⟨lit "video", lit "b.mp4", lit "G"⟩ : FileRef)] ∧
    ((get_files_content
        (add_file_content
          (add_file_content (smallPre ++ (filesPat ++ (smallTable ++ (linksClose ++ smallPost))))
            (lit "video") (lit "a.mp4") (lit "F"))
          (lit "video") (lit "b.mp4") (lit "G"))).map FileRef.type).Nodup :=
  C3_add_file_replaces smallPre smallTable smallPost (lit "video") (lit "a.mp4") (lit "b.mp4")
    (lit "F") (lit "G") (by decide) (by decide) (by decide) (by decide) (by decide)
    (by decide) (by decide)

/-- C4: for every folder-store state and every name equal to the
current default folder name, the generic delete and rename operations
both report failure and leave the directory tree (and the whole state)
unchanged. -/
theorem C4_default_folder_survives (st : FMState) (name : Str)
    (h : name = default_folder st) :
    (delete_folder st name).1.1 = false ∧ (delete_folder st name).2 = st ∧
    ∀ new, (rename_folder st name new).1.1 = false ∧ (rename_folder st name new).2 = st := by
  unfold delete_folder rename_folder
  by_cases hc : st.configured = true
  · simp [hc, h]
  · simp [hc]

theorem C4_witness :
    (delete_folder sampleFM (lit "00_Inbox")).1.1 = false ∧
    (delete_folder sampleFM (lit "00_Inbox")).2 = sampleFM ∧
    (rename_folder sampleFM (lit "00_Inbox") (lit "New")).1.1 = false ∧
    (rename_folder sampleFM (lit "00_Inbox") (lit "New")).2 = sampleFM := by
  obtain ⟨h1, h2, h3⟩ := C4_default_folder_survives sampleFM (lit "00_Inbox") (by decide)
  exact ⟨h1, h2, (h3 (lit "New")).1, (h3 (lit "New")).2⟩

/-- C7 counterexample: with a thumbnail already cached for `vid1`, a
subsequent save whose URL argument is the empty string returns `none`,
not the existing cached path, so the claim fails as stated for that
URL (the cache itself is still untouched). -/
theorem C7_counterexample :
    thumbnail_exists sampleThumbState (lit "vid1") = true ∧
    (save_thumbnail sampleThumbState (lit "vid1") (some []) none sampleFetch).1 = none ∧
    (save_thumbnail sampleThumbState (lit "vid1") (some []) none sampleFetch).2 =
      sampleThumbState := by
  constructor
  · decide
  · constructor <;> rfl

/-- C7 (amended): once a thumbnail is cached for a `video_id`, every
subsequent save leaves the cache state unchanged, and whenever the
effective URL is non-empty it returns the existing cached path. -/
theorem C7_thumbnail_write_once (st : ThumbState) (vid : Str)
    (turl info_thumb : Option Str) (fetch : Str → Option (List Nat))
    (hex : thumbnail_exists st vid = true) :
    (save_thumbnail st vid turl info_thumb fetch).2 = st ∧
    (effectiveThumbUrl turl info_thumb ≠ [] →
      (save_thumbnail st vid turl info_thumb fetch).1 = some (thumbPathOf st vid)) := by
  have hpath : get_thumbnail_path st vid = some (thumbPathOf st vid) := by
    unfold thumbnail_exists at hex
    unfold get_thumbnail_path at hex ⊢
    by_cases hfind : ((st.files.find? (fun q => q.1 == thumbPathOf st vid)).isSome : Bool) = true
    · rw [if_pos hfind]
    · rw [if_neg hfind] at hex; cases hex
  unfold save_thumbnail
  by_cases hurl : effectiveThumbUrl turl info_thumb = []
  · rw [if_pos hurl]
    exact ⟨rfl, fun hne => absurd hurl hne⟩
  · rw [if_neg hurl, if_pos (by unfold thumbnail_exists; rw [hpath]; rfl)]
    exact ⟨rfl, fun _ => hpath⟩

theorem C7_witness :
    (save_thumbnail sampleThumbState (lit "vid1") (some (lit "http://x")) none sampleFetch).2 =
      sampleThumbState ∧
    (save_thumbnail sampleThumbState (lit "vid1") (some (lit "http://x")) none sampleFetch).1 =
      some (thumbPathOf sampleThumbState (lit "vid1")) := by
  obtain ⟨h1, h2⟩ := C7_thumbnail_write_once sampleThumbState (lit "vid1")
    (some (lit "http://x")) none sampleFetch (by decide)
  exact ⟨h1, h2 (by decide)⟩

set_option maxRecDepth 100000 in
/-- C1 (code bug): on an entirely well-behaved item, `save` followed by
`parse` does not round-trip.  The `Duration` regex captures greedily to
the end of the table line, so the parsed duration gains the trailing
cell delimiter (`"3:45"` comes back as `"3:45 |"`); and an item saved
with an empty tag list comes back with one garbage tag holding the
whole Files table, because the lazy `(.+?)` of the empty Tags section
overruns into the following sections.  Every neighbouring field of the
same document round-trips, so the parse's own intent (recovering the
clean cell values, as the adjacent Platform regex does with `[^|]+`)
identifies these as slips in the code. -/
theorem C1_save_parse_divergence :
    sampleItem.duration_str = some (lit "3:45") ∧
    (parse_metadata (some sampleDoc)).duration_str = lit "3:45 |" ∧
    (parse_metadata (some (save_metadata_content { sampleItem with tags := [] }
        none none none sampleNow))).tags =
      [lit "## Files\n\n| Type | Filename | Folder |\n|------|----------|--------|\n| - | - | - |"] ∧
    (parse_metadata (some sampleDoc)).title = lit "My Video" ∧
    (parse_metadata (some sampleDoc)).channel = lit "Chan" ∧
    (parse_metadata (some sampleDoc)).platform = lit "youtube" ∧
    (parse_metadata (some sampleDoc)).tags = [lit "alpha", lit "beta"] ∧
    (parse_metadata (some sampleDoc)).url = lit "https://youtube.com/watch?v=abc" ∧
    (parse_metadata (some sampleDoc)).description = lit "A description." := by
  refine ⟨rfl, ?_, ?_, ?_, ?_, ?_, ?_, ?_, ?_⟩ <;> decide

/-! ## C9: MIME type mapping -/

theorem takeWhile_all_stop {p : Char → Bool} {l : List Char} (x : Char) (y : List Char)
    (hl : ∀ c ∈ l, p c = true) (hx : p x = false) :
    (l ++ x :: y).takeWhile p = l := by
  induction l with
  | nil => simp [List.takeWhile_cons, hx]
  | cons a l ih =>
    rw [List.cons_append, List.takeWhile_cons, hl a (by simp)]
    rw [ih fun c hc => hl c (by simp [hc])]
    simp

/-- `ntpath.splitext` on a separator-free path whose stem contains a
non-dot character and whose extension is dot-free splits at the last
dot. -/
theorem splitextExt_append (stem ext : Str)
    (hsep : ∀ c ∈ stem ++ ext, isSep c = false)
    (hdot : '.' ∈ ext → False)
    (hnd : ∃ c ∈ stem, ¬ c = '.') :
    splitextExt (stem ++ '.' :: ext) = '.' :: ext := by
  simp only [splitextExt]
  have hrev : (stem ++ '.' :: ext).reverse = ext.reverse ++ '.' :: stem.reverse := by
    simp
  rw [hrev]
  have hbase : (ext.reverse ++ '.' :: stem.reverse).takeWhile (fun c => ¬ isSep c) =
      ext.reverse ++ '.' :: stem.reverse := by
    rw [List.takeWhile_eq_self_iff]
    intro x hx
    simp only [List.mem_append, List.mem_cons, List.mem_reverse] at hx
    rcases hx with h | h | h
    · simp [hsep x (by simp [h])]
    · simp [h, isSep]
    · simp [hsep x (by simp [h])]
  rw [hbase, List.reverse_append, List.reverse_reverse]
  have hrev2 : (('.' :: stem.reverse).reverse ++ ext).reverse = ext.reverse ++ '.' :: stem.reverse := by
    simp
  rw [hrev2]
  have hafter : (ext.reverse ++ '.' :: stem.reverse).takeWhile (fun c => ¬ c = '.') =
      ext.reverse := by
    apply takeWhile_all_stop
    · intro c hc
      simp only [List.mem_reverse] at hc
      simp only [decide_eq_true_eq, decide_not]
      simp only [Bool.not_eq_true', decide_eq_false_iff_not]
      intro h
      exact hdot (h ▸ hc)
    · simp
  rw [hafter, List.drop_left' (by rw [List.length_reverse])]
  have hany : stem.reverse.any (fun c => ¬ c = '.') = true := by
    obtain ⟨c, hc, hne⟩ := hnd
    exact List.any_eq_true.mpr ⟨c, List.mem_reverse.mpr hc, by simp [hne]⟩
  simp [hany]
  exact hnd

/-- C9 counterexample: the extension `m4a` is not among the four of the
claim, yet it is mapped to `audio/mp4`, not to the generic binary type,
so the mapping is not closed over the four media extensions. -/
theorem C9_counterexample :
    get_mimetype_for_file (lit "a.m4a") = lit "audio/mp4" ∧
    get_mimetype_for_file (lit "a.m4a") ≠ lit "application/octet-stream" := by
  constructor <;> decide

/-- C9 (amended): for every separator-free path `stem ++ "." ++ ext`
with a well-formed stem and dot-free extension, the Streaming
Responder's MIME computation maps (case-insensitively) mp4, webm, mkv,
mp3 as the claim states, and additionally m4a to `audio/mp4`, wav to
`audio/wav`, ogg to `audio/ogg`, flac to `audio/flac`; every other
extension maps to `application/octet-stream` (the mapping is closed
over these eight extensions). -/
theorem C9_mimetype_mapping (stem ext : Str)
    (hsep : ∀ c ∈ stem ++ ext, isSep c = false)
    (hdot : '.' ∈ ext → False)
    (hnd : ∃ c ∈ stem, ¬ c = '.') :
    (pyLower ext = lit "mp4" → get_mimetype_for_file (stem ++ '.' :: ext) = lit "video/mp4") ∧
    (pyLower ext = lit "webm" → get_mimetype_for_file (stem ++ '.' :: ext) = lit "video/webm") ∧
    (pyLower ext = lit "mkv" → get_mimetype_for_file (stem ++ '.' :: ext) = lit "video/x-matroska") ∧
    (pyLower ext = lit "mp3" → get_mimetype_for_file (stem ++ '.' :: ext) = lit "audio/mpeg") ∧
    (pyLower ext = lit "m4a" → get_mimetype_for_file (stem ++ '.' :: ext) = lit "audio/mp4") ∧
    (pyLower ext = lit "wav" → get_mimetype_for_file (stem ++ '.' :: ext) = lit "audio/wav") ∧
    (pyLower ext = lit "ogg" → get_mimetype_for_file (stem ++ '.' :: ext) = lit "audio/ogg") ∧
    (pyLower ext = lit "flac" → get_mimetype_for_file (stem ++ '.' :: ext) = lit "audio/flac") ∧
    (pyLower ext ∉ [lit "mp4", lit "webm", lit "mkv", lit "mp3", lit "m4a", lit "wav",
        lit "ogg", lit "flac"] →
      get_mimetype_for_file (stem ++ '.' :: ext) = lit "application/octet-stream") := by
  have hsplit := splitextExt_append stem ext hsep hdot hnd
  have hlow : pyLower (splitextExt (stem ++ '.' :: ext)) = '.' :: pyLower ext := by
    rw [hsplit]; rfl
  simp only [get_mimetype_for_file]
  rw [hlow]
  refine ⟨?_, ?_, ?_, ?_, ?_, ?_, ?_, ?_, ?_⟩ <;> intro h
  · rw [h]; rfl
  · rw [h]; rfl
  · rw [h]; rfl
  · rw [h]; rfl
  · rw [h]; rfl
  · rw [h]; rfl
  · rw [h]; rfl
  · rw [h]; rfl
  · simp only [List.mem_cons, not_or] at h
    obtain ⟨h1, h2, h3, h4, h5, h6, h7, h8, _⟩ := h
    have key : ∀ t : Str, ¬ pyLower ext = t → ∀ v : Str,
        ¬ ((('.' :: t, v) : Str × Str).1 == '.' :: pyLower ext) = true := by
      intro t ht v he
      have h' : ('.' :: t : Str) = '.' :: pyLower ext := beq_iff_eq.mp he
      injection h' with _ hx
      exact ht hx.symm
    have hfind : mimeTable.find? (fun p => p.1 == '.' :: pyLower ext) = none := by
      rw [List.find?_eq_none]
      intro p hp
      simp only [mimeTable, List.mem_cons, List.not_mem_nil, or_false] at hp
      rcases hp with h | h | h | h | h | h | h | h
      · exact h ▸ key (lit "mp4") h1 (lit "video/mp4")
      · exact h ▸ key (lit "webm") h2 (lit "video/webm")
      · exact h ▸ key (lit "mkv") h3 (lit "video/x-matroska")
      · exact h ▸ key (lit "mp3") h4 (lit "audio/mpeg")
      · exact h ▸ key (lit "m4a") h5 (lit "audio/mp4")
      · exact h ▸ key (lit "wav") h6 (lit "audio/wav")
      · exact h ▸ key (lit "ogg") h7 (lit "audio/ogg")
      · exact h ▸ key (lit "flac") h8 (lit "audio/flac")
    rw [hfind]

theorem C9_witness :
    get_mimetype_for_file (lit "video" ++ '.' :: lit "MP4") = lit "video/mp4" ∧
    get_mimetype_for_file (lit "video" ++ '.' :: lit "txt") = lit "application/octet-stream" := by
  refine ⟨?_, ?_⟩
  · exact (C9_mimetype_mapping (lit "video") (lit "MP4") (by decide) (by decide)
      ⟨'v', by decide⟩).1 (by decide)
  · exact ((((((((C9_mimetype_mapping (lit "video") (lit "txt") (by decide) (by decide)
      ⟨'v', by decide⟩).2).2).2).2).2).2).2).2 (by decide)

/-! ## C2: range responses -/

theorem occursB_head_mem {c : Char} {pr s : Str} (h : occursB (c :: pr) s = true) :
    c ∈ s := by
  induction s with
  | nil => simp [occursB_nil] at h
  | cons a rest ih =>
    rw [occursB_cons] at h
    rcases Bool.or_eq_true_iff.mp h with h | h
    · have := List.isPrefixOf_iff_prefix.mp h
      rw [List.cons_prefix_iff] at this
      simp [this.1]
    · simp [ih h]

theorem pyReplaceAux_no_occurs (pat repl : Str) :
    ∀ (s : Str) (fuel : Nat), occursB pat s = false →
      pyReplaceAux pat repl fuel s = s := by
  intro s
  induction s with
  | nil => intro fuel _; cases fuel <;> rfl
  | cons c rest ih =>
    intro fuel h
    obtain ⟨h1, h2⟩ := occursB_cons_false h
    cases fuel with
    | zero => rfl
    | succ f =>
      rw [pyReplaceAux, if_neg (by simp [h1]), ih f h2]

theorem pyReplace_strip {pat : Str} (t : Str) (hp : pat ≠ [])
    (h : occursB pat t = false) : pyReplace pat [] (pat ++ t) = t := by
  rw [pyReplace]
  cases pat with
  | nil => exact absurd rfl hp
  | cons p pl =>
    rw [show (p :: pl) ++ t = p :: (pl ++ t) from rfl]
    rw [show (p :: (pl ++ t)).length = (pl ++ t).length + 1 from by simp]
    rw [pyReplaceAux]
    rw [if_pos ⟨by simp, by rw [← List.cons_append]; exact isPrefixOf_append_self _ _⟩]
    rw [show (p :: (pl ++ t)) = (p :: pl) ++ t from rfl, List.drop_left]
    rw [List.nil_append]
    exact pyReplaceAux_no_occurs _ _ t _ h

theorem take_chunk_eq {α : Type} (l : List α) (m n : Nat)
    (h : min m l.length ≤ n) :
    l.take m ++ (l.drop (min m l.length)).take (n - min m l.length) = l.take n := by
  by_cases hm : m ≤ l.length
  · rw [min_eq_left hm]
    rw [← List.take_add]
    congr 1
    rw [min_eq_left hm] at h
    omega
  · push_neg at hm
    rw [min_eq_right (by omega)]
    rw [List.drop_length, List.take_nil, List.append_nil]
    rw [List.take_of_length_le (by omega), List.take_of_length_le (by omega)]

theorem readChunks_eq_take :
    ∀ (fuel : Nat) (avail : List Nat) (r : Int), avail.length < fuel →
      readChunks avail r fuel = avail.take r.toNat := by
  intro fuel
  induction fuel with
  | zero => intro avail r h; omega
  | succ f ih =>
    intro avail r h
    rw [readChunks]
    by_cases hr : r ≤ 0
    · rw [if_pos hr]
      have : r.toNat = 0 := by omega
      rw [this, List.take_zero]
    · rw [if_neg hr]
      have hrt : 1 ≤ r.toNat := by omega
      by_cases hav : avail = []
      · subst hav
        simp
      · have hchunk : avail.take (min 8192 r.toNat) ≠ [] := by
          intro hc
          rw [List.take_eq_nil_iff] at hc
          rcases hc with hc | hc
          · omega
          · exact hav hc
        rw [if_neg hchunk]
        have hlentake : (avail.take (min 8192 r.toNat)).length =
            min (min 8192 r.toNat) avail.length := List.length_take _ _
        have hlen1 : 1 ≤ (avail.take (min 8192 r.toNat)).length := by
          rw [hlentake]
          have : 1 ≤ avail.length := List.length_pos.mpr hav
          omega
        rw [ih _ _ (by rw [List.length_drop]; omega)]
        have hkle : (avail.take (min 8192 r.toNat)).length ≤ r.toNat := by
          rw [hlentake]; omega
        have htn : (r - (((avail.take (min 8192 r.toNat)).length : Nat) : Int)).toNat =
            r.toNat - (avail.take (min 8192 r.toNat)).length := by omega
        rw [htn, List.length_take]
        exact take_chunk_eq avail _ _ (by rw [← List.length_take]; exact hkle)

theorem intToStr_nonneg {i : Int} (h : 0 ≤ i) : intToStr i = natToStr i.toNat := by
  rw [intToStr, if_neg (by omega)]

/-- C2 counterexample: the range `bytes=0-5` on a two-byte file is
answered with `Content-Length: 6` but a body of only the two available
bytes, so the body is not "exactly `length` bytes" as claimed for every
header of the given form. -/
theorem C2_counterexample :
    (stream_file_with_range [10, 20] (lit "v.mp4") (lit "bytes=0-5") 2).map
      (fun r => (r.status, r.content_length, r.body)) =
      some (206, lit "6", [10, 20]) := by
  decide

/-- C2 (amended): for every existing file and every header
`bytes=<start>-<end>` whose in-bounds range satisfies
`start ≤ end < size` after the defaults (missing start is 0, missing
end is `size - 1`), the responder returns status 206 with
`Content-Range: bytes start-end/size`, `Accept-Ranges: bytes`,
`Content-Length: end-start+1`, and a body of exactly `end-start+1`
bytes starting at byte `start` of the file. -/
theorem C2_range_response (file : List Nat) (path : Str) (s e : Option Nat)
    (h1 : s.getD 0 ≤ e.getD (file.length - 1))
    (h2 : e.getD (file.length - 1) < file.length) :
    stream_file_with_range file path (renderRangeHeader s e) (file.length : Int) =
      some { status := 206
             mimetype := get_mimetype path
             content_range := lit "bytes " ++ natToStr (s.getD 0) ++ '-' ::
               natToStr (e.getD (file.length - 1)) ++ '/' :: natToStr file.length
             accept_ranges := lit "bytes"
             content_length := natToStr (e.getD (file.length - 1) - s.getD 0 + 1)
             body := (file.drop (s.getD 0)).take (e.getD (file.length - 1) - s.getD 0 + 1) } ∧
    ((file.drop (s.getD 0)).take (e.getD (file.length - 1) - s.getD 0 + 1)).length =
      e.getD (file.length - 1) - s.getD 0 + 1 := by
  have hlen1 : 1 ≤ file.length := by
    cases e with
    | none => simpa using Nat.lt_of_le_of_lt (Nat.zero_le _) h2
    | some n => exact Nat.lt_of_le_of_lt (Nat.zero_le _) h2
  set start := s.getD 0 with hstart
  set endv := e.getD (file.length - 1) with hendv
  have hdigits : ∀ o : Option Nat, ∀ c ∈ optNatStr o, isDigitB c = true := by
    intro o c hc
    cases o with
    | none => simp [optNatStr] at hc
    | some n => exact natToStr_mem_digit hc
  have hsstr : ¬ '-' ∈ optNatStr s := fun hm => by
    have := hdigits s '-' hm
    simp [isDigitB] at this
  have hestr : ¬ '-' ∈ optNatStr e := fun hm => by
    have := hdigits e '-' hm
    simp [isDigitB] at this
  have hnob : occursB (lit "bytes=") (optNatStr s ++ '-' :: optNatStr e) = false := by
    cases hb : occursB (lit "bytes=") (optNatStr s ++ '-' :: optNatStr e) with
    | false => rfl
    | true =>
      exfalso
      have hmem := @occursB_head_mem 'b' (lit "ytes=") (optNatStr s ++ '-' :: optNatStr e)
        (by exact hb)
      rcases List.mem_append.mp hmem with hm | hm
      · have := hdigits s 'b' hm
        simp [isDigitB] at this
      · rcases List.mem_cons.mp hm with hm | hm
        · cases hm
        · have := hdigits e 'b' hm
          simp [isDigitB] at this
  have hreplace : pyReplace (lit "bytes=") [] (renderRangeHeader s e) =
      optNatStr s ++ '-' :: optNatStr e := by
    rw [renderRangeHeader, List.append_assoc]
    exact pyReplace_strip _ (by decide) hnob
  have hsplit : splitOnChar '-' (optNatStr s ++ '-' :: optNatStr e) =
      [optNatStr s, optNatStr e] := by
    rw [splitOnChar_append _ hsstr, splitOnChar_no_sep hestr]
  unfold stream_file_with_range
  rw [hreplace]
  have hp0 : (if optNatStr s = [] then some 0 else pyInt (optNatStr s)) =
      some (start : Int) := by
    cases s with
    | none => rw [if_pos (show optNatStr none = ([] : Str) from rfl)]; rfl
    | some n =>
      rw [show optNatStr (some n) = natToStr n from rfl]
      rw [if_neg (natToStr_ne_nil n), pyInt, strToNat_natToStr]
      rfl
  have hp1 : (if optNatStr e = [] then some ((file.length : Int) - 1)
      else pyInt (optNatStr e)) = some (endv : Int) := by
    cases e with
    | none =>
      rw [if_pos (show optNatStr none = ([] : Str) from rfl), hendv]
      congr 1
      simp only [Option.getD]
      omega
    | some n =>
      rw [show optNatStr (some n) = natToStr n from rfl]
      rw [if_neg (natToStr_ne_nil n), pyInt, strToNat_natToStr]
      rfl
  simp only [hsplit, hp0, hp1]
  have hbody : generateBody file (start : Int) ((endv : Int) - (start : Int) + 1) =
      (file.drop start).take (endv - start + 1) := by
    rw [generateBody]
    rw [readChunks_eq_take _ _ _ (by simp only [List.length_drop]; omega)]
    rw [show ((start : Int)).toNat = start from by omega]
    rw [show (((endv : Int) - (start : Int) + 1)).toNat = endv - start + 1 from by omega]
  have hcast : ∀ n : Nat, intToStr (n : Int) = natToStr n := by
    intro n
    rw [intToStr_nonneg (by omega), Int.toNat_ofNat]
  have hlen4 : intToStr ((endv : Int) - (start : Int) + 1) = natToStr (endv - start + 1) := by
    rw [intToStr_nonneg (by omega)]
    rw [show (((endv : Int) - (start : Int) + 1)).toNat = endv - start + 1 from by omega]
  refine ⟨?_, ?_⟩
  · simp only [hcast, hlen4, hbody]
  · rw [List.length_take, List.length_drop]
    omega

/-! ## C10: the parser is total and defaults every unextracted field -/

/-! Per-field closed forms of the parser: one chain of step
lemmas per field. -/

theorem parse_title_eq (c : Str) :
    (parse_metadata (some c)).title = (match extractTitle c with | some t => pyStrip t | none => []) := by
  have hOwn : (parseT c).title = (match extractTitle c with | some t => pyStrip t | none => []) := by
    unfold parseT
    cases extractTitle c <;> rfl
  have h1 : (parseC c).title = (parseT c).title := by
    unfold parseC
    cases extractChannel c <;> rfl
  have h2 : (parseP c).title = (parseC c).title := by
    unfold parseP
    cases extractPlatform c <;> rfl
  have h3 : (parseD c).title = (parseP c).title := by
    unfold parseD
    cases extractDuration c <;> rfl
  have h4 : (parseG c).title = (parseD c).title := by
    unfold parseG
    cases extractTags c with
    | none => rfl
    | some g =>
      show (if pyStrip g ≠ [] then { parseD c with tags := splitCommaTags (pyStrip g) }
        else parseD c).title = (parseD c).title
      split <;> rfl
  have h5 : (parseF c).title = (parseG c).title := by
    unfold parseF
    cases extractFilesSection c <;> rfl
  have h6 : (parseU c).title = (parseF c).title := by
    unfold parseU
    cases extractUrl c <;> rfl
  have h7 : (parseTh c).title = (parseU c).title := by
    unfold parseTh
    cases extractThumbnail c <;> rfl
  have h8 : (parseDe c).title = (parseTh c).title := by
    unfold parseDe
    cases extractDescription c <;> rfl
  have hsplit : parse_metadata (some c) =
      (if hasLinkOnlyMarker c then { parseDe c with link_only := true } else parseDe c) := rfl
  have hfin : (parse_metadata (some c)).title = (parseDe c).title := by
    rw [hsplit]
    cases hasLinkOnlyMarker c <;> rfl
  rw [hfin, h8, h7, h6, h5, h4, h3, h2, h1, hOwn]

theorem parse_channel_eq (c : Str) :
    (parse_metadata (some c)).channel = (match extractChannel c with | some p => p.1 | none => []) := by
  have h0 : (parseT c).channel = ([] : Str) := by
    unfold parseT
    cases extractTitle c <;> rfl
  have hOwn : (parseC c).channel = (match extractChannel c with | some p => p.1 | none => []) := by
    unfold parseC
    cases extractChannel c with
    | none =>
      show (parseT c).channel = ([] : Str)
      rw [h0]
    | some p => rfl
  have h2 : (parseP c).channel = (parseC c).channel := by
    unfold parseP
    cases extractPlatform c <;> rfl
  have h3 : (parseD c).channel = (parseP c).channel := by
    unfold parseD
    cases extractDuration c <;> rfl
  have h4 : (parseG c).channel = (parseD c).channel := by
    unfold parseG
    cases extractTags c with
    | none => rfl
    | some g =>
      show (if pyStrip g ≠ [] then { parseD c with tags := splitCommaTags (pyStrip g) }
        else parseD c).channel = (parseD c).channel
      split <;> rfl
  have h5 : (parseF c).channel = (parseG c).channel := by
    unfold parseF
    cases extractFilesSection c <;> rfl
  have h6 : (parseU c).channel = (parseF c).channel := by
    unfold parseU
    cases extractUrl c <;> rfl
  have h7 : (parseTh c).channel = (parseU c).channel := by
    unfold parseTh
    cases extractThumbnail c <;> rfl
  have h8 : (parseDe c).channel = (parseTh c).channel := by
    unfold parseDe
    cases extractDescription c <;> rfl
  have hsplit : parse_metadata (some c) =
      (if hasLinkOnlyMarker c then { parseDe c with link_only := true } else parseDe c) := rfl
  have hfin : (parse_metadata (some c)).channel = (parseDe c).channel := by
    rw [hsplit]
    cases hasLinkOnlyMarker c <;> rfl
  rw [hfin, h8, h7, h6, h5, h4, h3, h2, hOwn]

theorem parse_channel_url_eq (c : Str) :
    (parse_metadata (some c)).channel_url = (match extractChannel c with | some p => p.2 | none => []) := by
  have h0 : (parseT c).channel_url = ([] : Str) := by
    unfold parseT
    cases extractTitle c <;> rfl
  have hOwn : (parseC c).channel_url = (match extractChannel c with | some p => p.2 | none => []) := by
    unfold parseC
    cases extractChannel c with
    | none =>
      show (parseT c).channel_url = ([] : Str)
      rw [h0]
    | some p => rfl
  have h2 : (parseP c).channel_url = (parseC c).channel_url := by
    unfold parseP
    cases extractPlatform c <;> rfl
  have h3 : (parseD c).channel_url = (parseP c).channel_url := by
    unfold parseD
    cases extractDuration c <;> rfl
  have h4 : (parseG c).channel_url = (parseD c).channel_url := by
    unfold parseG
    cases extractTags c with
    | none => rfl
    | some g =>
      show (if pyStrip g ≠ [] then { parseD c with tags := splitCommaTags (pyStrip g) }
        else parseD c).channel_url = (parseD c).channel_url
      split <;> rfl
  have h5 : (parseF c).channel_url = (parseG c).channel_url := by
    unfold parseF
    cases extractFilesSection c <;> rfl
  have h6 : (parseU c).channel_url = (parseF c).channel_url := by
    unfold parseU
    cases extractUrl c <;> rfl
  have h7 : (parseTh c).channel_url = (parseU c).channel_url := by
    unfold parseTh
    cases extractThumbnail c <;> rfl
  have h8 : (parseDe c).channel_url = (parseTh c).channel_url := by
    unfold parseDe
    cases extractDescription c <;> rfl
  have hsplit : parse_metadata (some c) =
      (if hasLinkOnlyMarker c then { parseDe c with link_only := true } else parseDe c) := rfl
  have hfin : (parse_metadata (some c)).channel_url = (parseDe c).channel_url := by
    rw [hsplit]
    cases hasLinkOnlyMarker c <;> rfl
  rw [hfin, h8, h7, h6, h5, h4, h3, h2, hOwn]

theorem parse_platform_eq (c : Str) :
    (parse_metadata (some c)).platform = (match extractPlatform c with | some p => pyStrip p | none => lit "other") := by
  have h0 : (parseT c).platform = lit "other" := by
    unfold parseT
    cases extractTitle c <;> rfl
  have h1 : (parseC c).platform = (parseT c).platform := by
    unfold parseC
    cases extractChannel c <;> rfl
  have hOwn : (parseP c).platform = (match extractPlatform c with | some p => pyStrip p | none => lit "other") := by
    unfold parseP
    cases extractPlatform c with
    | none =>
      show (parseC c).platform = lit "other"
      rw [h1, h0]
    | some p => rfl
  have h3 : (parseD c).platform = (parseP c).platform := by
    unfold parseD
    cases extractDuration c <;> rfl
  have h4 : (parseG c).platform = (parseD c).platform := by
    unfold parseG
    cases extractTags c with
    | none => rfl
    | some g =>
      show (if pyStrip g ≠ [] then { parseD c with tags := splitCommaTags (pyStrip g) }
        else parseD c).platform = (parseD c).platform
      split <;> rfl
  have h5 : (parseF c).platform = (parseG c).platform := by
    unfold parseF
    cases extractFilesSection c <;> rfl
  have h6 : (parseU c).platform = (parseF c).platform := by
    unfold parseU
    cases extractUrl c <;> rfl
  have h7 : (parseTh c).platform = (parseU c).platform := by
    unfold parseTh
    cases extractThumbnail c <;> rfl
  have h8 : (parseDe c).platform = (parseTh c).platform := by
    unfold parseDe
    cases extractDescription c <;> rfl
  have hsplit : parse_metadata (some c) =
      (if hasLinkOnlyMarker c then { parseDe c with link_only := true } else parseDe c) := rfl
  have hfin : (parse_metadata (some c)).platform = (parseDe c).platform := by
    rw [hsplit]
    cases hasLinkOnlyMarker c <;> rfl
  rw [hfin, h8, h7, h6, h5, h4, h3, hOwn]

theorem parse_duration_str_eq (c : Str) :
    (parse_metadata (some c)).duration_str = (match extractDuration c with | some d => pyStrip d | none => []) := by
  have h0 : (parseT c).duration_str = ([] : Str) := by
    unfold parseT
    cases extractTitle c <;> rfl
  have h1 : (parseC c).duration_str = (parseT c).duration_str := by
    unfold parseC
    cases extractChannel c <;> rfl
  have h2 : (parseP c).duration_str = (parseC c).duration_str := by
    unfold parseP
    cases extractPlatform c <;> rfl
  have hOwn : (parseD c).duration_str = (match extractDuration c with | some d => pyStrip d | none => []) := by
    unfold parseD
    cases extractDuration c with
    | none =>
      show (parseP c).duration_str = ([] : Str)
      rw [h2, h1, h0]
    | some p => rfl
  have h4 : (parseG c).duration_str = (parseD c).duration_str := by
    unfold parseG
    cases extractTags c with
    | none => rfl
    | some g =>
      show (if pyStrip g ≠ [] then { parseD c with tags := splitCommaTags (pyStrip g) }
        else parseD c).duration_str = (parseD c).duration_str
      split <;> rfl
  have h5 : (parseF c).duration_str = (parseG c).duration_str := by
    unfold parseF
    cases extractFilesSection c <;> rfl
  have h6 : (parseU c).duration_str = (parseF c).duration_str := by
    unfold parseU
    cases extractUrl c <;> rfl
  have h7 : (parseTh c).duration_str = (parseU c).duration_str := by
    unfold parseTh
    cases extractThumbnail c <;> rfl
  have h8 : (parseDe c).duration_str = (parseTh c).duration_str := by
    unfold parseDe
    cases extractDescription c <;> rfl
  have hsplit : parse_metadata (some c) =
      (if hasLinkOnlyMarker c then { parseDe c with link_only := true } else parseDe c) := rfl
  have hfin : (parse_metadata (some c)).duration_str = (parseDe c).duration_str := by
    rw [hsplit]
    cases hasLinkOnlyMarker c <;> rfl
  rw [hfin, h8, h7, h6, h5, h4, hOwn]

theorem parse_tags_eq (c : Str) :
    (parse_metadata (some c)).tags = (match extractTags c with | some g => if pyStrip g ≠ [] then splitCommaTags (pyStrip g) else [] | none => []) := by
  have h0 : (parseT c).tags = ([] : List Str) := by
    unfold parseT
    cases extractTitle c <;> rfl
  have h1 : (parseC c).tags = (parseT c).tags := by
    unfold parseC
    cases extractChannel c <;> rfl
  have h2 : (parseP c).tags = (parseC c).tags := by
    unfold parseP
    cases extractPlatform c <;> rfl
  have h3 : (parseD c).tags = (parseP c).tags := by
    unfold parseD
    cases extractDuration c <;> rfl
  have hOwn : (parseG c).tags = (match extractTags c with | some g => if pyStrip g ≠ [] then splitCommaTags (pyStrip g) else [] | none => []) := by
    unfold parseG
    cases extractTags c with
    | none =>
      show (parseD c).tags = ([] : List Str)
      rw [h3, h2, h1, h0]
    | some g =>
      show (if pyStrip g ≠ [] then { parseD c with tags := splitCommaTags (pyStrip g) }
          else parseD c).tags =
        if pyStrip g ≠ [] then splitCommaTags (pyStrip g) else []
      by_cases hg : pyStrip g ≠ []
      · rw [if_pos hg, if_pos hg]
      · rw [if_neg hg, if_neg hg, h3, h2, h1, h0]
  have h5 : (parseF c).tags = (parseG c).tags := by
    unfold parseF
    cases extractFilesSection c <;> rfl
  have h6 : (parseU c).tags = (parseF c).tags := by
    unfold parseU
    cases extractUrl c <;> rfl
  have h7 : (parseTh c).tags = (parseU c).tags := by
    unfold parseTh
    cases extractThumbnail c <;> rfl
  have h8 : (parseDe c).tags = (parseTh c).tags := by
    unfold parseDe
    cases extractDescription c <;> rfl
  have hsplit : parse_metadata (some c) =
      (if hasLinkOnlyMarker c then { parseDe c with link_only := true } else parseDe c) := rfl
  have hfin : (parse_metadata (some c)).tags = (parseDe c).tags := by
    rw [hsplit]
    cases hasLinkOnlyMarker c <;> rfl
  rw [hfin, h8, h7, h6, h5, hOwn]

theorem parse_files_eq (c : Str) :
    (parse_metadata (some c)).files = (match extractFilesSection c with | some sect => parseFileRows sect | none => []) := by
  have h0 : (parseT c).files = ([] : List FileRef) := by
    unfold parseT
    cases extractTitle c <;> rfl
  have h1 : (parseC c).files = (parseT c).files := by
    unfold parseC
    cases extractChannel c <;> rfl
  have h2 : (parseP c).files = (parseC c).files := by
    unfold parseP
    cases extractPlatform c <;> rfl
  have h3 : (parseD c).files = (parseP c).files := by
    unfold parseD
    cases extractDuration c <;> rfl
  have h4 : (parseG c).files = (parseD c).files := by
    unfold parseG
    cases extractTags c with
    | none => rfl
    | some g =>
      show (if pyStrip g ≠ [] then { parseD c with tags := splitCommaTags (pyStrip g) }
        else parseD c).files = (parseD c).files
      split <;> rfl
  have hOwn : (parseF c).files = (match extractFilesSection c with | some sect => parseFileRows sect | none => []) := by
    unfold parseF
    cases extractFilesSection c with
    | none =>
      show (parseG c).files = ([] : List FileRef)
      rw [h4, h3, h2, h1, h0]
    | some p => rfl
  have h6 : (parseU c).files = (parseF c).files := by
    unfold parseU
    cases extractUrl c <;> rfl
  have h7 : (parseTh c).files = (parseU c).files := by
    unfold parseTh
    cases extractThumbnail c <;> rfl
  have h8 : (parseDe c).files = (parseTh c).files := by
    unfold parseDe
    cases extractDescription c <;> rfl
  have hsplit : parse_metadata (some c) =
      (if hasLinkOnlyMarker c then { parseDe c with link_only := true } else parseDe c) := rfl
  have hfin : (parse_metadata (some c)).files = (parseDe c).files := by
    rw [hsplit]
    cases hasLinkOnlyMarker c <;> rfl
  rw [hfin, h8, h7, h6, hOwn]

theorem parse_has_video_eq (c : Str) :
    (parse_metadata (some c)).has_video = (match extractFilesSection c with | some sect => (parseFileRows sect).any (fun f => f.type == lit "video") | none => false) := by
  have h0 : (parseT c).has_video = false := by
    unfold parseT
    cases extractTitle c <;> rfl
  have h1 : (parseC c).has_video = (parseT c).has_video := by
    unfold parseC
    cases extractChannel c <;> rfl
  have h2 : (parseP c).has_video = (parseC c).has_video := by
    unfold parseP
    cases extractPlatform c <;> rfl
  have h3 : (parseD c).has_video = (parseP c).has_video := by
    unfold parseD
    cases extractDuration c <;> rfl
  have h4 : (parseG c).has_video = (parseD c).has_video := by
    unfold parseG
    cases extractTags c with
    | none => rfl
    | some g =>
      show (if pyStrip g ≠ [] then { parseD c with tags := splitCommaTags (pyStrip g) }
        else parseD c).has_video = (parseD c).has_video
      split <;> rfl
  have hOwn : (parseF c).has_video = (match extractFilesSection c with | some sect => (parseFileRows sect).any (fun f => f.type == lit "video") | none => false) := by
    unfold parseF
    cases extractFilesSection c with
    | none =>
      show (parseG c).has_video = false
      rw [h4, h3, h2, h1, h0]
    | some p => rfl
  have h6 : (parseU c).has_video = (parseF c).has_video := by
    unfold parseU
    cases extractUrl c <;> rfl
  have h7 : (parseTh c).has_video = (parseU c).has_video := by
    unfold parseTh
    cases extractThumbnail c <;> rfl
  have h8 : (parseDe c).has_video = (parseTh c).has_video := by
    unfold parseDe
    cases extractDescription c <;> rfl
  have hsplit : parse_metadata (some c) =
      (if hasLinkOnlyMarker c then { parseDe c with link_only := true } else parseDe c) := rfl
  have hfin : (parse_metadata (some c)).has_video = (parseDe c).has_video := by
    rw [hsplit]
    cases hasLinkOnlyMarker c <;> rfl
  rw [hfin, h8, h7, h6, hOwn]

theorem parse_has_audio_eq (c : Str) :
    (parse_metadata (some c)).has_audio = (match extractFilesSection c with | some sect => (parseFileRows sect).any (fun f => f.type == lit "audio") | none => false) := by
  have h0 : (parseT c).has_audio = false := by
    unfold parseT
    cases extractTitle c <;> rfl
  have h1 : (parseC c).has_audio = (parseT c).has_audio := by
    unfold parseC
    cases extractChannel c <;> rfl
  have h2 : (parseP c).has_audio = (parseC c).has_audio := by
    unfold parseP
    cases extractPlatform c <;> rfl
  have h3 : (parseD c).has_audio = (parseP c).has_audio := by
    unfold parseD
    cases extractDuration c <;> rfl
  have h4 : (parseG c).has_audio = (parseD c).has_audio := by
    unfold parseG
    cases extractTags c with
    | none => rfl
    | some g =>
      show (if pyStrip g ≠ [] then { parseD c with tags := splitCommaTags (pyStrip g) }
        else parseD c).has_audio = (parseD c).has_audio
      split <;> rfl
  have hOwn : (parseF c).has_audio = (match extractFilesSection c with | some sect => (parseFileRows sect).any (fun f => f.type == lit "audio") | none => false) := by
    unfold parseF
    cases extractFilesSection c with
    | none =>
      show (parseG c).has_audio = false
      rw [h4, h3, h2, h1, h0]
    | some p => rfl
  have h6 : (parseU c).has_audio = (parseF c).has_audio := by
    unfold parseU
    cases extractUrl c <;> rfl
  have h7 : (parseTh c).has_audio = (parseU c).has_audio := by
    unfold parseTh
    cases extractThumbnail c <;> rfl
  have h8 : (parseDe c).has_audio = (parseTh c).has_audio := by
    unfold parseDe
    cases extractDescription c <;> rfl
  have hsplit : parse_metadata (some c) =
      (if hasLinkOnlyMarker c then { parseDe c with link_only := true } else parseDe c) := rfl
  have hfin : (parse_metadata (some c)).has_audio = (parseDe c).has_audio := by
    rw [hsplit]
    cases hasLinkOnlyMarker c <;> rfl
  rw [hfin, h8, h7, h6, hOwn]

theorem parse_url_eq (c : Str) :
    (parse_metadata (some c)).url = (match extractUrl c with | some u => pyStrip u | none => []) := by
  have h0 : (parseT c).url = ([] : Str) := by
    unfold parseT
    cases extractTitle c <;> rfl
  have h1 : (parseC c).url = (parseT c).url := by
    unfold parseC
    cases extractChannel c <;> rfl
  have h2 : (parseP c).url = (parseC c).url := by
    unfold parseP
    cases extractPlatform c <;> rfl
  have h3 : (parseD c).url = (parseP c).url := by
    unfold parseD
    cases extractDuration c <;> rfl
  have h4 : (parseG c).url = (parseD c).url := by
    unfold parseG
    cases extractTags c with
    | none => rfl
    | some g =>
      show (if pyStrip g ≠ [] then { parseD c with tags := splitCommaTags (pyStrip g) }
        else parseD c).url = (parseD c).url
      split <;> rfl
  have h5 : (parseF c).url = (parseG c).url := by
    unfold parseF
    cases extractFilesSection c <;> rfl
  have hOwn : (parseU c).url = (match extractUrl c with | some u => pyStrip u | none => []) := by
    unfold parseU
    cases extractUrl c with
    | none =>
      show (parseF c).url = ([] : Str)
      rw [h5, h4, h3, h2, h1, h0]
    | some p => rfl
  have h7 : (parseTh c).url = (parseU c).url := by
    unfold parseTh
    cases extractThumbnail c <;> rfl
  have h8 : (parseDe c).url = (parseTh c).url := by
    unfold parseDe
    cases extractDescription c <;> rfl
  have hsplit : parse_metadata (some c) =
      (if hasLinkOnlyMarker c then { parseDe c with link_only := true } else parseDe c) := rfl
  have hfin : (parse_metadata (some c)).url = (parseDe c).url := by
    rw [hsplit]
    cases hasLinkOnlyMarker c <;> rfl
  rw [hfin, h8, h7, hOwn]

theorem parse_thumbnail_eq (c : Str) :
    (parse_metadata (some c)).thumbnail = (match extractThumbnail c with | some t => pyStrip t | none => []) := by
  have h0 : (parseT c).thumbnail = ([] : Str) := by
    unfold parseT
    cases extractTitle c <;> rfl
  have h1 : (parseC c).thumbnail = (parseT c).thumbnail := by
    unfold parseC
    cases extractChannel c <;> rfl
  have h2 : (parseP c).thumbnail = (parseC c).thumbnail := by
    unfold parseP
    cases extractPlatform c <;> rfl
  have h3 : (parseD c).thumbnail = (parseP c).thumbnail := by
    unfold parseD
    cases extractDuration c <;> rfl
  have h4 : (parseG c).thumbnail = (parseD c).thumbnail := by
    unfold parseG
    cases extractTags c with
    | none => rfl
    | some g =>
      show (if pyStrip g ≠ [] then { parseD c with tags := splitCommaTags (pyStrip g) }
        else parseD c).thumbnail = (parseD c).thumbnail
      split <;> rfl
  have h5 : (parseF c).thumbnail = (parseG c).thumbnail := by
    unfold parseF
    cases extractFilesSection c <;> rfl
  have h6 : (parseU c).thumbnail = (parseF c).thumbnail := by
    unfold parseU
    cases extractUrl c <;> rfl
  have hOwn : (parseTh c).thumbnail = (match extractThumbnail c with | some t => pyStrip t | none => []) := by
    unfold parseTh
    cases extractThumbnail c with
    | none =>
      show (parseU c).thumbnail = ([] : Str)
      rw [h6, h5, h4, h3, h2, h1, h0]
    | some p => rfl
  have h8 : (parseDe c).thumbnail = (parseTh c).thumbnail := by
    unfold parseDe
    cases extractDescription c <;> rfl
  have hsplit : parse_metadata (some c) =
      (if hasLinkOnlyMarker c then { parseDe c with link_only := true } else parseDe c) := rfl
  have hfin : (parse_metadata (some c)).thumbnail = (parseDe c).thumbnail := by
    rw [hsplit]
    cases hasLinkOnlyMarker c <;> rfl
  rw [hfin, h8, hOwn]

theorem parse_description_eq (c : Str) :
    (parse_metadata (some c)).description = (match extractDescription c with | some d => pyStrip d | none => []) := by
  have h0 : (parseT c).description = ([] : Str) := by
    unfold parseT
    cases extractTitle c <;> rfl
  have h1 : (parseC c).description = (parseT c).description := by
    unfold parseC
    cases extractChannel c <;> rfl
  have h2 : (parseP c).description = (parseC c).description := by
    unfold parseP
    cases extractPlatform c <;> rfl
  have h3 : (parseD c).description = (parseP c).description := by
    unfold parseD
    cases extractDuration c <;> rfl
  have h4 : (parseG c).description = (parseD c).description := by
    unfold parseG
    cases extractTags c with
    | none => rfl
    | some g =>
      show (if pyStrip g ≠ [] then { parseD c with tags := splitCommaTags (pyStrip g) }
        else parseD c).description = (parseD c).description
      split <;> rfl
  have h5 : (parseF c).description = (parseG c).description := by
    unfold parseF
    cases extractFilesSection c <;> rfl
  have h6 : (parseU c).description = (parseF c).description := by
    unfold parseU
    cases extractUrl c <;> rfl
  have h7 : (parseTh c).description = (parseU c).description := by
    unfold parseTh
    cases extractThumbnail c <;> rfl
  have hOwn : (parseDe c).description = (match extractDescription c with | some d => pyStrip d | none => []) := by
    unfold parseDe
    cases extractDescription c with
    | none =>
      show (parseTh c).description = ([] : Str)
      rw [h7, h6, h5, h4, h3, h2, h1, h0]
    | some p => rfl
  have hsplit : parse_metadata (some c) =
      (if hasLinkOnlyMarker c then { parseDe c with link_only := true } else parseDe c) := rfl
  have hfin : (parse_metadata (some c)).description = (parseDe c).description := by
    rw [hsplit]
    cases hasLinkOnlyMarker c <;> rfl
  rw [hfin, hOwn]

theorem parse_link_only_eq (c : Str) :
    (parse_metadata (some c)).link_only =
      (if hasLinkOnlyMarker c then true
       else match extractFilesSection c with
         | some sect => filesSentinelOnly (parseFileRows sect)
         | none => false) := by
  have h0 : (parseT c).link_only = false := by
    unfold parseT
    cases extractTitle c <;> rfl
  have h1 : (parseC c).link_only = (parseT c).link_only := by
    unfold parseC
    cases extractChannel c <;> rfl
  have h2 : (parseP c).link_only = (parseC c).link_only := by
    unfold parseP
    cases extractPlatform c <;> rfl
  have h3 : (parseD c).link_only = (parseP c).link_only := by
    unfold parseD
    cases extractDuration c <;> rfl
  have h4 : (parseG c).link_only = (parseD c).link_only := by
    unfold parseG
    cases extractTags c with
    | none => rfl
    | some g =>
      show (if pyStrip g ≠ [] then { parseD c with tags := splitCommaTags (pyStrip g) }
        else parseD c).link_only = (parseD c).link_only
      split <;> rfl
  have hOwn : (parseF c).link_only =
      (match extractFilesSection c with
       | some sect => filesSentinelOnly (parseFileRows sect)
       | none => false) := by
    unfold parseF
    cases extractFilesSection c with
    | none =>
      show (parseG c).link_only = false
      rw [h4, h3, h2, h1, h0]
    | some p => rfl
  have h6 : (parseU c).link_only = (parseF c).link_only := by
    unfold parseU
    cases extractUrl c <;> rfl
  have h7 : (parseTh c).link_only = (parseU c).link_only := by
    unfold parseTh
    cases extractThumbnail c <;> rfl
  have h8 : (parseDe c).link_only = (parseTh c).link_only := by
    unfold parseDe
    cases extractDescription c <;> rfl
  have hsplit : parse_metadata (some c) =
      (if hasLinkOnlyMarker c then { parseDe c with link_only := true } else parseDe c) := rfl
  rw [hsplit]
  cases hasLinkOnlyMarker c with
  | true => rfl
  | false =>
    show (parseDe c).link_only =
      (match extractFilesSection c with
       | some sect => filesSentinelOnly (parseFileRows sect)
       | none => false)
    rw [h8, h7, h6, hOwn]

/-- C10: the parser never fails: a missing or unreadable file yields
the all-defaults record, and on arbitrary document content every field
whose extraction does not succeed holds its declared default (the
record type itself guarantees every key is present). -/
theorem C10_parse_total_defaults :
    parse_metadata none = defaultInfo ∧
    ∀ c : Str,
      (extractTitle c = none → (parse_metadata (some c)).title = defaultInfo.title) ∧
      (extractChannel c = none → (parse_metadata (some c)).channel = defaultInfo.channel ∧
        (parse_metadata (some c)).channel_url = defaultInfo.channel_url) ∧
      (extractPlatform c = none → (parse_metadata (some c)).platform = defaultInfo.platform) ∧
      (extractDuration c = none →
        (parse_metadata (some c)).duration_str = defaultInfo.duration_str) ∧
      (extractTags c = none → (parse_metadata (some c)).tags = defaultInfo.tags) ∧
      (extractFilesSection c = none → (parse_metadata (some c)).files = defaultInfo.files ∧
        (parse_metadata (some c)).has_video = defaultInfo.has_video ∧
        (parse_metadata (some c)).has_audio = defaultInfo.has_audio) ∧
      (extractUrl c = none → (parse_metadata (some c)).url = defaultInfo.url) ∧
      (extractThumbnail c = none →
        (parse_metadata (some c)).thumbnail = defaultInfo.thumbnail) ∧
      (extractDescription c = none →
        (parse_metadata (some c)).description = defaultInfo.description) ∧
      (extractFilesSection c = none → hasLinkOnlyMarker c = false →
        (parse_metadata (some c)).link_only = defaultInfo.link_only) := by
  refine ⟨rfl, fun c => ?_⟩
  refine ⟨?_, ?_, ?_, ?_, ?_, ?_, ?_, ?_, ?_, ?_⟩
  · intro h; rw [parse_title_eq, h]; rfl
  · intro h
    constructor
    · rw [parse_channel_eq, h]; rfl
    · rw [parse_channel_url_eq, h]; rfl
  · intro h; rw [parse_platform_eq, h]; rfl
  · intro h; rw [parse_duration_str_eq, h]; rfl
  · intro h; rw [parse_tags_eq, h]; rfl
  · intro h
    refine ⟨?_, ?_, ?_⟩
    · rw [parse_files_eq, h]; rfl
    · rw [parse_has_video_eq, h]; rfl
    · rw [parse_has_audio_eq, h]; rfl
  · intro h; rw [parse_url_eq, h]; rfl
  · intro h; rw [parse_thumbnail_eq, h]; rfl
  · intro h; rw [parse_description_eq, h]; rfl
  · intro h1 h2; rw [parse_link_only_eq, h1, h2]; rfl

theorem C10_witness :
    parse_metadata none = defaultInfo ∧
    (parse_metadata (some (lit "hello"))).title = defaultInfo.title ∧
    (parse_metadata (some (lit "hello"))).files = defaultInfo.files := by
  obtain ⟨h0, h⟩ := C10_parse_total_defaults
  exact ⟨h0, (h (lit "hello")).1 (by decide), ((h (lit "hello")).2.2.2.2.2.1 (by decide)).1⟩

theorem C2_witness :
    stream_file_with_range [7, 8, 9, 10] (lit "v.mp4") (renderRangeHeader (some 1) (some 2))
        ((4 : Nat) : Int) =
      some { status := 206
             mimetype := get_mimetype (lit "v.mp4")
             content_range := lit "bytes " ++ natToStr 1 ++ '-' :: natToStr 2 ++ '/' :: natToStr 4
             accept_ranges := lit "bytes"
             content_length := natToStr 2
             body := ([7, 8, 9, 10].drop 1).take 2 } := by
  have h := C2_range_response [7, 8, 9, 10] (lit "v.mp4") (some 1) (some 2)
    (by decide) (by decide)
  exact h.1

end YTD
